import Mathlib

/-!
A shallow embedding of the baml-sap-ts parser-coercer pipeline.

The embedding covers the type coercer (`src/type-coercer.ts`, present in the
repository) and the public orchestration layer (`src/index.ts`).  JavaScript
dynamic values are modelled by `JSValue`; JS numbers are modelled as exact
decimals `JsDec` (every JSON literal is an exact decimal, and every numeric
operation the coercer performs - parsing, comparison, truncation, remainder -
stays inside the decimals; the NaN and infinite doubles, reachable only
through `parseFloat` of non-numeric text, are folded into `Option.none`).
JS objects are modelled as insertion-ordered association
lists; prototype-inherited property names (such as `toString`) are outside
the model.  Bounded recursion is made explicit through a fuel parameter;
the entry point `coerceValue` supplies fuel that is generous relative to the
input, so fuel exhaustion plays the role of the source's depth guard.
-/

/-- An exact decimal `m * 10 ^ p`, the model of the JS numbers that flow
through the pipeline.  All constructions go through `JsDec.mk10`, which
normalizes to the canonical representative (`m` not divisible by ten, and
`0` represented as `⟨0, 0⟩`), so structural equality is numeric equality. -/
structure JsDec where
  m : ℤ
  p : ℤ
deriving DecidableEq

/-- Strip factors of ten from the mantissa into the exponent. -/
def stripTens : Nat → ℤ → ℤ → ℤ × ℤ
  | 0, m, p => (m, p)
  | fuel + 1, m, p =>
      if Int.tmod m 10 = 0 && m ≠ 0 then stripTens fuel (Int.tdiv m 10) (p + 1)
      else (m, p)

/-- The canonical decimal `m * 10 ^ p`. -/
def JsDec.mk10 (m p : ℤ) : JsDec :=
  if m = 0 then ⟨0, 0⟩
  else
    let s := stripTens m.natAbs m p
    ⟨s.1, s.2⟩

instance (n : Nat) : OfNat JsDec n := ⟨JsDec.mk10 n 0⟩

instance : Neg JsDec := ⟨fun d => JsDec.mk10 (-d.m) d.p⟩

/-- The two mantissas brought to a common exponent. -/
def JsDec.align (a b : JsDec) : ℤ × ℤ :=
  let e := min a.p b.p
  (a.m * 10 ^ (a.p - e).toNat, b.m * 10 ^ (b.p - e).toNat)

/-- Numeric strict order on the decimals. -/
def JsDec.blt (a b : JsDec) : Bool :=
  decide ((JsDec.align a b).1 < (JsDec.align a b).2)

/-- Numeric non-strict order on the decimals. -/
def JsDec.ble (a b : JsDec) : Bool :=
  decide ((JsDec.align a b).1 ≤ (JsDec.align a b).2)

/-- JavaScript `Number.isInteger` on the model: canonical decimals are
integers exactly when the exponent is non-negative. -/
def JsDec.isInt (d : JsDec) : Bool := decide (0 ≤ d.p)

/-- JavaScript `Math.trunc` (toward zero) on the model. -/
def JsDec.trunc (d : JsDec) : JsDec :=
  if 0 ≤ d.p then d
  else JsDec.mk10 (Int.tdiv d.m ((10 : ℤ) ^ (-d.p).toNat)) 0

/-- Multiplication of decimals. -/
def JsDec.mul (a b : JsDec) : JsDec := JsDec.mk10 (a.m * b.m) (a.p + b.p)

/-- Subtraction of decimals. -/
def JsDec.sub (a b : JsDec) : JsDec :=
  JsDec.mk10 ((JsDec.align a b).1 - (JsDec.align a b).2) (min a.p b.p)

/-- JavaScript `%` (remainder with truncated division) on the model;
`none` is the NaN produced by a zero divisor. -/
def JsDec.rem (a b : JsDec) : Option JsDec :=
  if b.m = 0 then none
  else
    let q : ℤ :=
      if b.p ≤ a.p then Int.tdiv (a.m * 10 ^ (a.p - b.p).toNat) b.m
      else Int.tdiv a.m (b.m * 10 ^ (b.p - a.p).toNat)
    some (JsDec.sub a (JsDec.mul b (JsDec.mk10 q 0)))

/-- The dynamic values produced by the JSON layer and consumed by the
coercer: JavaScript `undefined`, `null`, booleans, numbers, strings, arrays
and plain objects (insertion-ordered string maps). -/
inductive JSValue where
  | undef
  | null
  | bool (b : Bool)
  | num (d : JsDec)
  | str (s : String)
  | arr (elems : List JSValue)
  | obj (fields : List (String × JSValue))

mutual

/-- Decidable equality for `JSValue` (structural; JS `===` is modelled
separately by `jsStrictEq`). -/
def JSValue.decEq : (a b : JSValue) → Decidable (a = b)
  | .undef, .undef => isTrue rfl
  | .null, .null => isTrue rfl
  | .bool a, .bool b =>
      if h : a = b then isTrue (by rw [h]) else isFalse (by simp [h])
  | .num a, .num b =>
      if h : a = b then isTrue (by rw [h]) else isFalse (by simp [h])
  | .str a, .str b =>
      if h : a = b then isTrue (by rw [h]) else isFalse (by simp [h])
  | .arr a, .arr b =>
      match JSValue.decEqList a b with
      | isTrue h => isTrue (by rw [h])
      | isFalse h => isFalse (by simp [h])
  | .obj a, .obj b =>
      match JSValue.decEqFields a b with
      | isTrue h => isTrue (by rw [h])
      | isFalse h => isFalse (by simp [h])
  | .undef, .null => isFalse nofun
  | .undef, .bool _ => isFalse nofun
  | .undef, .num _ => isFalse nofun
  | .undef, .str _ => isFalse nofun
  | .undef, .arr _ => isFalse nofun
  | .undef, .obj _ => isFalse nofun
  | .null, .undef => isFalse nofun
  | .null, .bool _ => isFalse nofun
  | .null, .num _ => isFalse nofun
  | .null, .str _ => isFalse nofun
  | .null, .arr _ => isFalse nofun
  | .null, .obj _ => isFalse nofun
  | .bool _, .undef => isFalse nofun
  | .bool _, .null => isFalse nofun
  | .bool _, .num _ => isFalse nofun
  | .bool _, .str _ => isFalse nofun
  | .bool _, .arr _ => isFalse nofun
  | .bool _, .obj _ => isFalse nofun
  | .num _, .undef => isFalse nofun
  | .num _, .null => isFalse nofun
  | .num _, .bool _ => isFalse nofun
  | .num _, .str _ => isFalse nofun
  | .num _, .arr _ => isFalse nofun
  | .num _, .obj _ => isFalse nofun
  | .str _, .undef => isFalse nofun
  | .str _, .null => isFalse nofun
  | .str _, .bool _ => isFalse nofun
  | .str _, .num _ => isFalse nofun
  | .str _, .arr _ => isFalse nofun
  | .str _, .obj _ => isFalse nofun
  | .arr _, .undef => isFalse nofun
  | .arr _, .null => isFalse nofun
  | .arr _, .bool _ => isFalse nofun
  | .arr _, .num _ => isFalse nofun
  | .arr _, .str _ => isFalse nofun
  | .arr _, .obj _ => isFalse nofun
  | .obj _, .undef => isFalse nofun
  | .obj _, .null => isFalse nofun
  | .obj _, .bool _ => isFalse nofun
  | .obj _, .num _ => isFalse nofun
  | .obj _, .str _ => isFalse nofun
  | .obj _, .arr _ => isFalse nofun

/-- Componentwise decidable equality for lists of `JSValue`. -/
def JSValue.decEqList : (a b : List JSValue) → Decidable (a = b)
  | [], [] => isTrue rfl
  | [], _ :: _ => isFalse nofun
  | _ :: _, [] => isFalse nofun
  | x :: xs, y :: ys =>
      match JSValue.decEq x y, JSValue.decEqList xs ys with
      | isTrue h1, isTrue h2 => isTrue (by rw [h1, h2])
      | isFalse h1, _ => isFalse (by simp [h1])
      | _, isFalse h2 => isFalse (by simp [h2])

/-- Componentwise decidable equality for object field lists. -/
def JSValue.decEqFields : (a b : List (String × JSValue)) → Decidable (a = b)
  | [], [] => isTrue rfl
  | [], _ :: _ => isFalse nofun
  | _ :: _, [] => isFalse nofun
  | (k, x) :: xs, (l, y) :: ys =>
      if h0 : k = l then
        match JSValue.decEq x y, JSValue.decEqFields xs ys with
        | isTrue h1, isTrue h2 => isTrue (by rw [h0, h1, h2])
        | isFalse h1, _ => isFalse (by simp [h1])
        | _, isFalse h2 => isFalse (by simp [h2])
      else isFalse (by simp [h0])

end

instance : DecidableEq JSValue := JSValue.decEq

/-- JavaScript `typeof`, restricted to the values of the model. -/
def jsTypeof : JSValue → String
  | .undef => "undefined"
  | .null => "object"
  | .bool _ => "boolean"
  | .num _ => "number"
  | .str _ => "string"
  | .arr _ => "object"
  | .obj _ => "object"

/-- JavaScript strict equality `===` on the model.  Primitive values
compare structurally; distinct array or object literals are distinct
references, so they never compare equal here (the coercer only ever
compares a freshly parsed value against a schema constant). -/
def jsStrictEq : JSValue → JSValue → Bool
  | .undef, .undef => true
  | .null, .null => true
  | .bool a, .bool b => a == b
  | .num a, .num b => a == b
  | .str a, .str b => a == b
  | _, _ => false

/-- JavaScript number-to-string conversion on the decimal model: integer
values print without a decimal point, other values print sign, integer
digits, point, fractional digits.  (The exponent forms JS uses for very
large or very small magnitudes are outside the model.) -/
def jsNumToString (d : JsDec) : String :=
  if 0 ≤ d.p then toString (d.m * 10 ^ d.p.toNat)
  else
    let k := (-d.p).toNat
    let sign := if d.m < 0 then "-" else ""
    let digits := toString d.m.natAbs
    let padded :=
      if digits.length < k + 1 then
        String.mk (List.replicate (k + 1 - digits.length) '0') ++ digits
      else digits
    sign ++ (padded.take (padded.length - k)) ++ "." ++ (padded.drop (padded.length - k))

mutual

/-- JavaScript `String(value)` on the model: `Array.prototype.toString`
joins the element conversions with commas, rendering `null` and
`undefined` elements as empty strings; plain objects print as
`[object Object]`. -/
def jsToString : JSValue → String
  | .undef => "undefined"
  | .null => "null"
  | .bool b => if b then "true" else "false"
  | .num q => jsNumToString q
  | .str s => s
  | .arr xs => String.intercalate "," (jsToStringElems xs)
  | .obj _ => "[object Object]"

/-- Element conversions for `Array.prototype.join`. -/
def jsToStringElems : List JSValue → List String
  | [] => []
  | .undef :: vs => "" :: jsToStringElems vs
  | .null :: vs => "" :: jsToStringElems vs
  | v :: vs => jsToString v :: jsToStringElems vs

end

/-- Escape one character for a JSON string literal. -/
def jsonEscapeChar (c : Char) : String :=
  if c = '"' then "\\\""
  else if c = '\\' then "\\\\"
  else if c = '\n' then "\\n"
  else if c = '\r' then "\\r"
  else if c = '\t' then "\\t"
  else if c = '\x08' then "\\b"
  else if c = '\x0c' then "\\f"
  else if c.toNat < 32 then
    "\\u00" ++ String.mk [Nat.digitChar (c.toNat / 16), Nat.digitChar (c.toNat % 16)]
  else String.mk [c]

/-- A JSON string literal for `s`. -/
def jsonQuote (s : String) : String :=
  "\"" ++ String.join (s.data.map jsonEscapeChar) ++ "\""

mutual

/-- JavaScript `JSON.stringify` on the model.  `none` is the `undefined`
result (`undefined` input); inside arrays `undefined` serializes as
`null`, inside objects the member is dropped. -/
def jsonStringify : JSValue → Option String
  | .undef => none
  | .null => some "null"
  | .bool b => some (if b then "true" else "false")
  | .num q => some (jsNumToString q)
  | .str s => some (jsonQuote s)
  | .arr xs => some ("[" ++ String.intercalate "," (jsonStringifyElems xs) ++ "]")
  | .obj fs => some ("\x7b" ++ String.intercalate "," (jsonStringifyFields fs) ++ "\x7d")

/-- Array elements for `JSON.stringify`. -/
def jsonStringifyElems : List JSValue → List String
  | [] => []
  | v :: vs => ((jsonStringify v).getD "null") :: jsonStringifyElems vs

/-- Object members for `JSON.stringify`; members whose value serializes to
`undefined` are dropped. -/
def jsonStringifyFields : List (String × JSValue) → List String
  | [] => []
  | (k, v) :: fs =>
      match jsonStringify v with
      | some s => (jsonQuote k ++ ":" ++ s) :: jsonStringifyFields fs
      | none => jsonStringifyFields fs

end

/-- Property read `value[key]` on an object value: the first binding of the
key, or `undefined` when absent. -/
def objGet (fields : List (String × JSValue)) (key : String) : JSValue :=
  match fields.find? (fun f => f.1 == key) with
  | none => .undef
  | some f => f.2

/-- The JavaScript `in` operator on the model, for the non-null object
values that can reach it: own data properties of plain objects, and for
arrays the valid indices and `length` (prototype-inherited names are
outside the model). -/
def jsIn (key : String) : JSValue → Bool
  | .obj fs => fs.any (fun f => f.1 == key)
  | .arr xs =>
      key == "length" ||
        (match (if key.data ≠ [] && key.data.all Char.isDigit then
                  some (key.data.foldl (fun acc c => acc * 10 + (c.toNat - 48)) 0)
                else none) with
         | some i => decide (i < xs.length) && toString i == key
         | none => false)
  | _ => false


/-- The numeric value of a list of decimal digit characters. -/
def digitsToNat (ds : List Char) : Nat :=
  ds.foldl (fun acc c => acc * 10 + (c.toNat - 48)) 0

/-- Leading-whitespace stripping used by the JS numeric parsers. -/
def skipJsWs (cs : List Char) : List Char := cs.dropWhile Char.isWhitespace

/-- An optional leading sign: the signed factor and the remaining input. -/
def parseSign (cs : List Char) : ℤ × List Char :=
  match cs with
  | '-' :: rest => (-1, rest)
  | '+' :: rest => (1, rest)
  | _ => (1, cs)

/-- JavaScript `parseInt(s, 10)`: skip whitespace, read an optional sign
and then the longest prefix of decimal digits; `none` is `NaN` (no digit
found). -/
def jsParseInt (s : String) : Option ℤ :=
  let cs := skipJsWs s.data
  let signed := parseSign cs
  let digits := signed.2.takeWhile Char.isDigit
  if digits.isEmpty then none
  else some (signed.1 * (digitsToNat digits : ℤ))

/-- The optional `.digits` fraction of a decimal literal: the fraction
digits and the remaining input. -/
def parseFracPart (cs : List Char) : List Char × List Char :=
  match cs with
  | '.' :: rest =>
      (rest.takeWhile Char.isDigit, rest.drop (rest.takeWhile Char.isDigit).length)
  | _ => ([], cs)

/-- The optional `e[sign]digits` exponent of a decimal literal (an
incomplete exponent contributes zero, as the literal prefix ends before
it). -/
def parseExpPart (cs : List Char) : ℤ :=
  match cs with
  | e :: rest =>
      if e = 'e' ∨ e = 'E' then
        let esigned := parseSign rest
        let eds := esigned.2.takeWhile Char.isDigit
        if eds.isEmpty then 0 else esigned.1 * (digitsToNat eds : ℤ)
      else 0
  | [] => 0

/-- JavaScript `parseFloat(s)`: skip whitespace, read an optional sign and
then the longest decimal-literal prefix `digits [. digits] [e[sign]digits]`;
`none` is `NaN` (no mantissa digit found).  The `Infinity` production of
the builtin has no finite value and is folded into `none`; JSON numbers
never take that branch. -/
def jsParseFloat (s : String) : Option JsDec :=
  let cs := skipJsWs s.data
  let signed := parseSign cs
  let intDigits := signed.2.takeWhile Char.isDigit
  let afterInt := signed.2.drop intDigits.length
  let fracPart := parseFracPart afterInt
  if intDigits.isEmpty && fracPart.1.isEmpty then none
  else
    some (JsDec.mk10 (signed.1 * (digitsToNat (intDigits ++ fracPart.1) : ℤ))
      (parseExpPart fracPart.2 - fracPart.1.length))

/-- JSON whitespace (space, tab, line feed, carriage return). -/
def jsonWsChar (c : Char) : Bool :=
  c = ' ' || c = '\t' || c = '\n' || c = '\r'

/-- Drop leading JSON whitespace. -/
def skipJsonWs (cs : List Char) : List Char := cs.dropWhile jsonWsChar

/-- The value of a hexadecimal digit character, if it is one. -/
def hexDigitVal (c : Char) : Option Nat :=
  if '0' ≤ c ∧ c ≤ '9' then some (c.toNat - 48)
  else if 'a' ≤ c ∧ c ≤ 'f' then some (c.toNat - 87)
  else if 'A' ≤ c ∧ c ≤ 'F' then some (c.toNat - 55)
  else none

/-- Parse the body of a JSON string literal (after the opening quote), up
to and including the closing quote; yields the decoded characters and the
remaining input.  Escape sequences follow the JSON grammar; a `\u` escape
denoting an invalid scalar value decodes through `Char.ofNat`'s fallback. -/
def parseJsonStringBody : List Char → Option (List Char × List Char)
  | [] => none
  | '"' :: rest => some ([], rest)
  | '\\' :: rest =>
      match rest with
      | [] => none
      | 'u' :: h1 :: h2 :: h3 :: h4 :: rest2 =>
          match hexDigitVal h1, hexDigitVal h2, hexDigitVal h3, hexDigitVal h4 with
          | some a, some b, some c, some d =>
              (parseJsonStringBody rest2).map
                (fun r => (Char.ofNat (((a * 16 + b) * 16 + c) * 16 + d) :: r.1, r.2))
          | _, _, _, _ => none
      | e :: rest2 =>
          let decoded : Option Char :=
            if e = '"' then some '"'
            else if e = '\\' then some '\\'
            else if e = '/' then some '/'
            else if e = 'b' then some '\x08'
            else if e = 'f' then some '\x0c'
            else if e = 'n' then some '\n'
            else if e = 'r' then some '\r'
            else if e = 't' then some '\t'
            else none
          match decoded with
          | some c => (parseJsonStringBody rest2).map (fun r => (c :: r.1, r.2))
          | none => none
  | c :: rest =>
      if c.toNat < 32 then none
      else (parseJsonStringBody rest).map (fun r => (c :: r.1, r.2))

/-- Parse a strict JSON number prefix: `-? (0 | [1-9][0-9]*) frac? exp?`. -/
def parseJsonNumber (cs : List Char) : Option (JsDec × List Char) :=
  let signed : ℤ × List Char :=
    match cs with
    | '-' :: rest => (-1, rest)
    | _ => (1, cs)
  let intDigits := signed.2.takeWhile Char.isDigit
  let intOk :=
    match intDigits with
    | [] => false
    | ['0'] => true
    | '0' :: _ :: _ => false
    | _ => true
  if !intOk then none
  else
    let afterInt := signed.2.drop intDigits.length
    let fracState : Option (List Char × List Char) :=
      match afterInt with
      | '.' :: rest =>
          let fds := rest.takeWhile Char.isDigit
          if fds.isEmpty then none else some (fds, rest.drop fds.length)
      | _ => some ([], afterInt)
    match fracState with
    | none => none
    | some (fds, afterFrac) =>
        let expState : Option (ℤ × List Char) :=
          match afterFrac with
          | e :: rest =>
              if e = 'e' ∨ e = 'E' then
                let esigned : ℤ × List Char :=
                  match rest with
                  | '-' :: r => (-1, r)
                  | '+' :: r => (1, r)
                  | _ => (1, rest)
                let eds := esigned.2.takeWhile Char.isDigit
                if eds.isEmpty then none
                else some (esigned.1 * (digitsToNat eds : ℤ), esigned.2.drop eds.length)
              else some (0, afterFrac)
          | [] => some (0, afterFrac)
        match expState with
        | none => none
        | some (ex, rest) =>
            some (JsDec.mk10 (signed.1 * (digitsToNat (intDigits ++ fds) : ℤ))
              (ex - fds.length), rest)

/-- Property write `fields[key] = v` with JavaScript object semantics: an
existing binding is overwritten in place, a new key is appended. -/
def objSet (fields : List (String × JSValue)) (key : String) (v : JSValue) :
    List (String × JSValue) :=
  if fields.any (fun f => f.1 == key) then
    fields.map (fun f => if f.1 == key then (key, v) else f)
  else fields ++ [(key, v)]

mutual

/-- Strict JSON value parser (the model of `JSON.parse`), returning the
parsed value and the unconsumed input.  Fuel bounds the recursion; the
entry point `jsonParse` supplies more fuel than any input can use. -/
def parseJsonValue : Nat → List Char → Option (JSValue × List Char)
  | 0, _ => none
  | fuel + 1, cs =>
      match skipJsonWs cs with
      | '\x7b' :: rest =>
          (match skipJsonWs rest with
           | '\x7d' :: rest2 => some (.obj [], rest2)
           | _ => parseJsonMembers fuel rest [])
      | '[' :: rest =>
          (match skipJsonWs rest with
           | ']' :: rest2 => some (.arr [], rest2)
           | _ => parseJsonElements fuel rest [])
      | '"' :: rest =>
          (parseJsonStringBody rest).map (fun r => (.str (String.mk r.1), r.2))
      | 't' :: 'r' :: 'u' :: 'e' :: rest => some (.bool true, rest)
      | 'f' :: 'a' :: 'l' :: 's' :: 'e' :: rest => some (.bool false, rest)
      | 'n' :: 'u' :: 'l' :: 'l' :: rest => some (.null, rest)
      | rest => (parseJsonNumber rest).map (fun r => (.num r.1, r.2))

/-- Parse the members of a JSON object (after `{` when the object is not
empty), accumulating bindings with JS assignment semantics (a duplicate
key keeps its first position but takes the later value). -/
def parseJsonMembers : Nat → List Char → List (String × JSValue) →
    Option (JSValue × List Char)
  | 0, _, _ => none
  | fuel + 1, cs, acc =>
      match skipJsonWs cs with
      | '"' :: rest =>
          match parseJsonStringBody rest with
          | none => none
          | some (key, rest2) =>
              match skipJsonWs rest2 with
              | ':' :: rest3 =>
                  match parseJsonValue fuel rest3 with
                  | none => none
                  | some (v, rest4) =>
                      let acc2 := objSet acc (String.mk key) v
                      match skipJsonWs rest4 with
                      | ',' :: rest5 => parseJsonMembers fuel rest5 acc2
                      | '\x7d' :: rest5 => some (.obj acc2, rest5)
                      | _ => none
              | _ => none
      | _ => none

/-- Parse the elements of a JSON array (after `[` when the array is not
empty). -/
def parseJsonElements : Nat → List Char → List JSValue →
    Option (JSValue × List Char)
  | 0, _, _ => none
  | fuel + 1, cs, acc =>
      match parseJsonValue fuel cs with
      | none => none
      | some (v, rest) =>
          match skipJsonWs rest with
          | ',' :: rest2 => parseJsonElements fuel rest2 (acc ++ [v])
          | ']' :: rest2 => some (.arr (acc ++ [v]), rest2)
          | _ => none

end

/-- The model of `JSON.parse`: parse one JSON value and require only
whitespace after it; `none` is the thrown `SyntaxError`. -/
def jsonParse (s : String) : Option JSValue :=
  match parseJsonValue (2 * s.length + 4) s.data with
  | some (v, rest) => if (skipJsonWs rest).isEmpty then some v else none
  | none => none

/-- Numeric constraint metadata of `Number` / `Integer` schemas. -/
structure NumConstraints where
  minimum : Option JsDec := none
  maximum : Option JsDec := none
  exclusiveMinimum : Option JsDec := none
  exclusiveMaximum : Option JsDec := none
  multipleOf : Option JsDec := none

/-- A JS regular expression as the coercer consumes it: the pattern source
(used in messages) together with its `RegExp.prototype.test` semantics,
carried as an explicit predicate. -/
structure JsRegex where
  source : String
  test : String → Bool

mutual

/-- The TypeBox schema nodes the coercer dispatches on (`schema[Kind]`).
`anyT` covers both the `Any` and `Unknown` kinds, which the source treats
identically; the `$ref` property that the source checks before the kind
switch is the `ref` node.  The open-ended JSON-schema fallback branch of
the source (schemas with no TypeBox kind) is outside this closed model. -/
inductive Schema where
  | string (minLength : Option Nat) (maxLength : Option Nat)
      (pattern : Option JsRegex) (format : Option String)
  | number (c : NumConstraints)
  | integer (c : NumConstraints)
  | boolean
  | nullT
  | anyT
  | literal (const : JSValue)
  | enumT (values : List JSValue)
  | array (items : Schema)
  | tuple (items : List PropSchema) (additionalItems : Option Bool)
  | object (properties : List (String × PropSchema)) (required : List String)
      (additionalProperties : AddProps)
  | record (patternProperties : List (String × Schema)) (additionalProperties : AddProps)
  | union (anyOf : List Schema)
  | intersect (allOf : List Schema)
  | optional (item : Schema)
  | ref (target : String)

/-- A schema in property position, together with the `default` metadata
the coercer reads off it.  Property keys of an `object` schema are assumed
distinct, as they are in a JS object literal. -/
inductive PropSchema where
  | mk (schema : Schema) (dflt : Option JSValue)

/-- The `additionalProperties` (or record `additionalProperties`) slot:
absent, a boolean flag, or a schema. -/
inductive AddProps where
  | missing
  | flag (b : Bool)
  | schema (s : Schema)

end

/-- The schema of a property slot. -/
def PropSchema.schema : PropSchema → Schema
  | .mk s _ => s

/-- The `default` metadata of a property slot. -/
def PropSchema.dflt : PropSchema → Option JSValue
  | .mk _ d => d

/-- Whether a schema node is the `Optional` kind. -/
def isOptionalKind : Schema → Bool
  | .optional _ => true
  | _ => false

/-- `isNullable` of the source: a schema with `anyOf` alternatives one of
which is the `Null` kind (only `union` nodes carry `anyOf`). -/
def isNullable : Schema → Bool
  | .union vs =>
      vs.any fun s =>
        match s with
        | .nullT => true
        | _ => false
  | _ => false

/-- `isOptionalProperty` of the coercer: the `Optional` kind, or a union
with a `Null` alternative. -/
def isOptionalProperty : Schema → Bool
  | .optional _ => true
  | .union vs =>
      vs.any fun s =>
        match s with
        | .nullT => true
        | _ => false
  | _ => false

/-- JS falsiness of the two absent values, the test the source spells
`value === null || value === undefined`. -/
def isAbsent (v : JSValue) : Bool := v == .null || v == .undef

mutual

/-- `canHandleValue` of the source: the cheap admissibility pre-filter of
union selection.  The source performs three sequential checks (the
`Any`/`Unknown` kinds, then absent values against `Null`/`Optional`/
nullable schemas, then a per-kind shape switch whose default is `true`);
here the three are fused into one match per schema kind, which is the same
function case by case. -/
def canHandleValue (value : JSValue) : Schema → Bool
  | .anyT => true
  | .nullT => true
  | .optional _ => true
  | .string _ _ _ _ =>
      if isAbsent value then false
      else
        match value with
        | .str _ => true
        | _ => false
  | .number _ =>
      if isAbsent value then false
      else
        match value with
        | .num _ => true
        | _ => false
  | .integer _ =>
      if isAbsent value then false
      else
        match value with
        | .num d => JsDec.isInt d
        | _ => false
  | .boolean =>
      if isAbsent value then false
      else
        match value with
        | .bool _ => true
        | _ => false
  | .object _ _ _ =>
      if isAbsent value then false
      else
        match value with
        | .obj _ => true
        | _ => false
  | .array _ =>
      if isAbsent value then false
      else
        match value with
        | .arr _ => true
        | _ => false
  | .literal c => if isAbsent value then false else jsStrictEq value c
  | .enumT vals => if isAbsent value then false else vals.any (jsStrictEq value)
  | .union vs =>
      if isAbsent value then isNullable (.union vs)
      else canHandleAnyVariant value vs
  | .tuple _ _ => !(isAbsent value)
  | .record _ _ => !(isAbsent value)
  | .intersect _ => !(isAbsent value)
  | .ref _ => !(isAbsent value)

/-- `some`-quantified recursion of `canHandleValue` over union variants. -/
def canHandleAnyVariant (value : JSValue) : List Schema → Bool
  | [] => false
  | s :: ss => canHandleValue value s || canHandleAnyVariant value ss

end

/-- `isComplete` of the source, driving the `isPartial` flag: an object
input must carry every required field, an array input must be non-empty,
and any other input must be present (not `null` or `undefined`). -/
def isComplete (value : JSValue) (s : Schema) : Bool :=
  match s with
  | .object properties required _ =>
      match value with
      | .obj _ | .arr _ =>
          properties.all fun kp => !(required.contains kp.1) || jsIn kp.1 value
      | _ => false
  | .array _ =>
      match value with
      | .arr xs => decide (0 < xs.length)
      | _ => false
  | _ => !(value == .undef) && !(value == .null)

/-- `CoercionOptions` of the source: every field optional, the caller's
partial configuration (an `Option.none` field models an absent key). -/
structure CoercionOptions where
  allowPartials : Option Bool := none
  useDefaults : Option Bool := none
  strict : Option Bool := none
  maxDepth : Option Nat := none
  trackCoercions : Option Bool := none
deriving DecidableEq

/-- The result of `{ ...defaultOptions, ...options }`: every field
populated. -/
structure ResolvedCoercionOptions where
  allowPartials : Bool
  useDefaults : Bool
  strict : Bool
  maxDepth : Nat
  trackCoercions : Bool
deriving DecidableEq

/-- `defaultOptions` of the type coercer. -/
def defaultCoercionOptions : ResolvedCoercionOptions :=
  { allowPartials := false
    useDefaults := true
    strict := false
    maxDepth := 50
    trackCoercions := false }

/-- The spread merge `{ ...defaultOptions, ...options }` performed by
`coerceValue`. -/
def resolveCoercionOptions (o : CoercionOptions) : ResolvedCoercionOptions :=
  { allowPartials := o.allowPartials.getD defaultCoercionOptions.allowPartials
    useDefaults := o.useDefaults.getD defaultCoercionOptions.useDefaults
    strict := o.strict.getD defaultCoercionOptions.strict
    maxDepth := o.maxDepth.getD defaultCoercionOptions.maxDepth
    trackCoercions := o.trackCoercions.getD defaultCoercionOptions.trackCoercions }

/-- One `addError(message, expected, received)` record as pushed during
the walk.  The source's `addError` closure is defined once in
`coerceValue` and captures the top-level `path` and `value`: the per-node
path parameter is never part of an error, so no path is recorded here;
`coerceValue` later stamps every error with its own `path` argument and
defaults `received` to `String(value)` of its own `value` argument. -/
structure ErrItem where
  message : String
  expected : Option String := none
  received : Option String := none
deriving DecidableEq

/-- The observable effect of one coercion step: the produced value, the
coercion notes pushed through `addCoercion` (collected unconditionally
here; `coerceValue` keeps them only when `trackCoercions` is set, which
is the same filtering the source does at push time), and the errors
pushed through `addError`. -/
structure Walk where
  value : JSValue
  coercions : List String := []
  errors : List ErrItem := []
deriving DecidableEq

/-- `String.prototype.toLowerCase` on the model (character map; JS lowers
the full Unicode table, `Char.toLower` the ASCII range, which covers the
tokens the coercer compares). -/
def jsToLower (s : String) : String := String.mk (s.data.map Char.toLower)

/-- `coerceLiteral` of the source. -/
def coerceLiteral (value : JSValue) (constV : JSValue) (_path : String) : Walk :=
  if jsStrictEq value constV then ⟨value, [], []⟩
  else if jsToString value == jsToString constV then ⟨constV, [], []⟩
  else
    ⟨value, [],
      [⟨"Expected literal " ++ ((jsonStringify constV).getD "undefined"),
        jsonStringify constV, some (jsToString value)⟩]⟩

/-- `coerceEnum` of the source. -/
def coerceEnum (value : JSValue) (allowed : List JSValue) (path : String) : Walk :=
  let err : Walk :=
    ⟨value, [],
      [⟨"Expected one of " ++
          String.intercalate ", " (allowed.map fun v => (jsonStringify v).getD "undefined"),
        some "enum", some (jsToString value)⟩]⟩
  if allowed.any (jsStrictEq value) then ⟨value, [], []⟩
  else
    match value with
    | .str s =>
        match allowed.find? (fun v =>
            match v with
            | .str a => jsToLower a == jsToLower s
            | _ => false) with
        | some m =>
            ⟨m, ["case-insensitive enum match at " ++ path ++ ": " ++ s ++ " -> " ++ jsToString m],
              []⟩
        | none => err
    | _ => err

/-- `coerceString` of the source.  A string input is returned unchanged
with `minLength` / `maxLength` / `pattern` validated (the `format`
constraint is accepted but never validated, hence the unused parameter);
any other input is stringified with a coercion note.  String lengths count
scalar values where JS counts UTF-16 units; the two agree outside
astral-plane characters. -/
def coerceString (value : JSValue) (minLength maxLength : Option Nat)
    (pattern : Option JsRegex) (_format : Option String) (path : String) : Walk :=
  match value with
  | .str s =>
      let e1 : List ErrItem :=
        match minLength with
        | some n =>
            if s.length < n then
              [⟨"String too short (min " ++ toString n ++ ")",
                some ("minLength " ++ toString n), some (toString s.length)⟩]
            else []
        | none => []
      let e2 : List ErrItem :=
        match maxLength with
        | some n =>
            if s.length > n then
              [⟨"String too long (max " ++ toString n ++ ")",
                some ("maxLength " ++ toString n), some (toString s.length)⟩]
            else []
        | none => []
      let e3 : List ErrItem :=
        match pattern with
        | some rx =>
            if !(rx.test s) then
              [⟨"String does not match pattern /" ++ rx.source ++ "/",
                some ("pattern " ++ rx.source), some s⟩]
            else []
        | none => []
      ⟨.str s, [], e1 ++ e2 ++ e3⟩
  | _ =>
      let note := "coerced " ++ jsTypeof value ++ " to string at " ++ path
      match value with
      | .num d => ⟨.str (jsNumToString d), [note], []⟩
      | .bool b => ⟨.str (if b then "true" else "false"), [note], []⟩
      | .null => ⟨.str "null", [note], []⟩
      | .arr _ => ⟨.str ((jsonStringify value).getD "undefined"), [note], []⟩
      | .obj _ => ⟨.str ((jsonStringify value).getD "undefined"), [note], []⟩
      | v => ⟨.str (jsToString v), [note], []⟩

/-- `validateNumber` of the source, as the list of errors it pushes (the
source returns the number unchanged and pushes through the closure). -/
def validateNumber (num : JsDec) (c : NumConstraints) (_path : String) : List ErrItem :=
  (match c.minimum with
   | some m =>
       if JsDec.blt num m then
         [⟨"Number below minimum (" ++ jsNumToString m ++ ")",
           some (">= " ++ jsNumToString m), some (jsNumToString num)⟩]
       else []
   | none => []) ++
  (match c.maximum with
   | some m =>
       if JsDec.blt m num then
         [⟨"Number above maximum (" ++ jsNumToString m ++ ")",
           some ("<= " ++ jsNumToString m), some (jsNumToString num)⟩]
       else []
   | none => []) ++
  (match c.exclusiveMinimum with
   | some m =>
       if JsDec.ble num m then
         [⟨"Number not above exclusive minimum (" ++ jsNumToString m ++ ")",
           some ("> " ++ jsNumToString m), some (jsNumToString num)⟩]
       else []
   | none => []) ++
  (match c.exclusiveMaximum with
   | some m =>
       if JsDec.ble m num then
         [⟨"Number not below exclusive maximum (" ++ jsNumToString m ++ ")",
           some ("< " ++ jsNumToString m), some (jsNumToString num)⟩]
       else []
   | none => []) ++
  (match c.multipleOf with
   | some m =>
       if !(JsDec.rem num m == some 0) then
         [⟨"Number not multiple of " ++ jsNumToString m,
           some ("multiple of " ++ jsNumToString m), some (jsNumToString num)⟩]
       else []
   | none => [])

/-- `coerceNumber` of the source; `isInt` records whether the schema kind
was `Integer`. -/
def coerceNumber (value : JSValue) (isInt : Bool) (c : NumConstraints) (path : String) : Walk :=
  let cannot : Walk :=
    ⟨value, [],
      [⟨"Cannot coerce to " ++ (if isInt then "integer" else "number"),
        some (if isInt then "integer" else "number"), some (jsToString value)⟩]⟩
  match value with
  | .num n =>
      if isInt && !(JsDec.isInt n) then
        let t := JsDec.trunc n
        ⟨.num t, ["truncated float to integer at " ++ path], validateNumber t c path⟩
      else ⟨.num n, [], validateNumber n c path⟩
  | .str s =>
      let parsed : Option JsDec :=
        if isInt then (jsParseInt s).map fun i => JsDec.mk10 i 0
        else jsParseFloat s
      (match parsed with
       | some n => ⟨.num n, ["parsed string to number at " ++ path], validateNumber n c path⟩
       | none => cannot)
  | .bool b =>
      let n : JsDec := if b then 1 else 0
      ⟨.num n, ["converted boolean to number at " ++ path], validateNumber n c path⟩
  | _ => cannot

/-- `coerceBoolean` of the source. -/
def coerceBoolean (value : JSValue) (_path : String) : Walk :=
  let cannot : Walk :=
    ⟨value, [], [⟨"Cannot coerce to boolean", some "boolean", some (jsToString value)⟩]⟩
  match value with
  | .bool b => ⟨.bool b, [], []⟩
  | .str s =>
      let lower := jsToLower s
      if lower == "true" || lower == "1" || lower == "yes" then ⟨.bool true, [], []⟩
      else if lower == "false" || lower == "0" || lower == "no" || lower == "" then
        ⟨.bool false, [], []⟩
      else cannot
  | .num d => ⟨.bool (!(d == (0 : JsDec))), [], []⟩
  | _ => cannot

/-- `coerceNull` of the source (the unused schema parameter is dropped):
absent inputs become `null` silently; a present input becomes `null`
silently under `allowPartials` and with a coercion note otherwise. -/
def coerceNull (value : JSValue) (o : ResolvedCoercionOptions) (path : String) : Walk :=
  if isAbsent value then ⟨.null, [], []⟩
  else if o.allowPartials then ⟨.null, [], []⟩
  else ⟨.null, ["coerced " ++ jsTypeof value ++ " to null at " ++ path], []⟩

/-- One iteration of `coerceUnion`'s variant loop over a pre-computed
run `t` (admissibility flag and private-buffer walk): stop at the first
admissible run with no errors, otherwise track the first run attaining
the smallest error count. -/
def unionStep (acc : Option Walk × Option (JSValue × Nat)) (t : Bool × Walk) :
    Option Walk × Option (JSValue × Nat) :=
  match acc.1 with
  | some _ => acc
  | none =>
      if t.1 then
        if t.2.errors.isEmpty then (some t.2, acc.2)
        else
          match acc.2 with
          | none => (none, some (t.2.value, t.2.errors.length))
          | some b =>
              if t.2.errors.length < b.2 then (none, some (t.2.value, t.2.errors.length))
              else acc
      else acc

/-- The walk result used both when the explicit depth guard fires
(`depth > maxDepth`) and when fuel runs out (fuel models the same bounded
recursion). -/
def depthExceeded (value : JSValue) : Walk :=
  ⟨value, [], [⟨"Maximum depth exceeded", none, none⟩]⟩

mutual

/-- `coerceInternal` of the source: depth guard, absent-value handling,
`$ref` pass-through, then dispatch on the schema kind.  The first `Nat`
argument is fuel; every recursive call consumes one unit, and the entry
point `coerceValue` supplies more than any input can use, so the fuel-out
branch behaves as the source's depth guard. -/
def coerceInternalF : Nat → JSValue → Schema → ResolvedCoercionOptions → String → Nat → Walk
  | 0, value, _, _, _, _ => depthExceeded value
  | fuel + 1, value, schema, o, path, depth =>
      if depth > o.maxDepth then depthExceeded value
      else if isAbsent value then coerceNull value o path
      else
        match schema with
        | .ref r => ⟨value, ["unresolved reference: " ++ r], []⟩
        | .object props required addl => coerceObjectF fuel value props required addl o path depth
        | .array items => coerceArrayF fuel value items o path depth
        | .union vs => coerceUnionF fuel value vs o path depth
        | .intersect allOf => coerceIntersectF fuel value allOf o path depth
        | .optional inner => coerceOptionalF fuel value inner o path depth
        | .literal c => coerceLiteral value c path
        | .enumT vals => coerceEnum value vals path
        | .string mn mx pat fmt => coerceString value mn mx pat fmt path
        | .number c => coerceNumber value false c path
        | .integer c => coerceNumber value true c path
        | .boolean => coerceBoolean value path
        | .nullT => coerceNull value o path
        | .anyT => ⟨value, [], []⟩
        | .record pp addl => coerceRecordF fuel value pp addl o path depth
        | .tuple items addI => coerceTupleF fuel value items addI o path depth
  termination_by structural fuel _ _ _ _ _ => fuel


/-- `coerceObject` of the source, taking the `properties`, `required` and
`additionalProperties` slots of the object schema.  A non-object input is
retried after array-to-object conversion or JSON parsing, else rejected;
an object input is rebuilt field by field (declared properties first, in
declaration order, then undeclared input fields in input order), errors
and notes accumulating in the same order the source pushes them. -/
def coerceObjectF : Nat → JSValue → List (String × PropSchema) → List String → AddProps →
    ResolvedCoercionOptions → String → Nat → Walk
  | 0, value, _, _, _, _, _, _ => depthExceeded value
  | fuel + 1, value, props, required, addl, o, path, depth =>
      match value with
      | .obj fields =>
          let fieldOuts := props.map fun kp =>
            let key := kp.1
            let fieldPath := if path == "" then key else path ++ "." ++ key
            let fieldValue := objGet fields key
            let isRequired := required.contains key
            if fieldValue == .undef then
              if o.useDefaults && kp.2.dflt.isSome then
                (([(key, kp.2.dflt.getD .undef)] : List (String × JSValue)),
                  (["used default for " ++ fieldPath] : List String), ([] : List ErrItem))
              else if !isRequired || isOptionalProperty kp.2.schema then
                ([], [], [])
              else if o.allowPartials then
                ([(key, .undef)], [], [])
              else
                ([(key, .undef)], [],
                  [⟨"Missing required field: " ++ key, none, some "undefined"⟩])
            else
              let r := coerceInternalF fuel fieldValue kp.2.schema o fieldPath (depth + 1)
              ([(key, r.value)], r.coercions, r.errors)
          let extraOuts := fields.map fun kv =>
            if props.any (fun kp => kp.1 == kv.1) then
              (([] : List (String × JSValue)), ([] : List String), ([] : List ErrItem))
            else
              match addl with
              | .missing => ([(kv.1, kv.2)], [], [])
              | .flag true => ([(kv.1, kv.2)], [], [])
              | .flag false => ([], [], [])
              | .schema sch =>
                  let fieldPath := if path == "" then kv.1 else path ++ "." ++ kv.1
                  let r := coerceInternalF fuel kv.2 sch o fieldPath (depth + 1)
                  ([(kv.1, r.value)], r.coercions, r.errors)
          ⟨.obj ((fieldOuts.map fun t => t.1).flatten ++ (extraOuts.map fun t => t.1).flatten),
            (fieldOuts.map fun t => t.2.1).flatten ++ (extraOuts.map fun t => t.2.1).flatten,
            (fieldOuts.map fun t => t.2.2).flatten ++ (extraOuts.map fun t => t.2.2).flatten⟩
      | .arr xs =>
          let indexed : JSValue := .obj (xs.enum.map fun p => (toString p.1, p.2))
          let r := coerceObjectF fuel indexed props required addl o path depth
          ⟨r.value, ("converted array to object with index keys at " ++ path) :: r.coercions,
            r.errors⟩
      | .str s =>
          (match jsonParse s with
           | some (.obj pf) =>
               let r := coerceObjectF fuel (.obj pf) props required addl o path depth
               ⟨r.value, ("parsed string to object at " ++ path) :: r.coercions, r.errors⟩
           | some (.arr pf) =>
               let r := coerceObjectF fuel (.arr pf) props required addl o path depth
               ⟨r.value, ("parsed string to object at " ++ path) :: r.coercions, r.errors⟩
           | _ =>
               ⟨value, [],
                 [⟨"Expected object, got string", some "object", some "string"⟩]⟩)
      | _ =>
          ⟨value, [],
            [⟨"Expected object, got " ++ jsTypeof value, some "object", some (jsTypeof value)⟩]⟩
  termination_by structural fuel _ _ _ _ _ _ _ => fuel


/-- `coerceArray` of the source: a non-array input is wrapped as a
single-element array (with a note); array elements are coerced
elementwise with indexed paths. -/
def coerceArrayF : Nat → JSValue → Schema → ResolvedCoercionOptions → String → Nat → Walk
  | 0, value, _, _, _, _ => depthExceeded value
  | fuel + 1, value, items, o, path, depth =>
      match value with
      | .arr xs =>
          let rs := xs.enum.map fun p =>
            coerceInternalF fuel p.2 items o (path ++ "[" ++ toString p.1 ++ "]") (depth + 1)
          ⟨.arr (rs.map fun r => r.value), (rs.map fun r => r.coercions).flatten,
            (rs.map fun r => r.errors).flatten⟩
      | _ =>
          let r := coerceInternalF fuel value items o (path ++ "[0]") (depth + 1)
          ⟨.arr [r.value], ("wrapped single value in array at " ++ path) :: r.coercions, r.errors⟩
  termination_by structural fuel _ _ _ _ _ => fuel


/-- `coerceUnion` of the source.  Each admissible variant (per
`canHandleValue`) is run with private buffers; the first with zero errors
wins and its notes are forwarded; otherwise the first variant attaining
the smallest error count supplies the value, its own errors and notes are
discarded, and only a `selected union variant` note is recorded.  With no
admissible variant, the first variant is rerun with the caller's buffers
(`forced union variant`); with no variants at all, an error.  The
source's early-return loop is expressed as a fold over the pre-computed
per-variant runs; the runs are independent, so the results coincide.  (The
source also counts the best variant's notes; the count is never read and
is not modelled.) -/
def coerceUnionF : Nat → JSValue → List Schema → ResolvedCoercionOptions → String → Nat → Walk
  | 0, value, _, _, _, _ => depthExceeded value
  | fuel + 1, value, variants, o, path, depth =>
      let tried := variants.map fun variant =>
        (canHandleValue value variant, coerceInternalF fuel value variant o path depth)
      let selection := tried.foldl unionStep
        ((none : Option Walk), (none : Option (JSValue × Nat)))
      match selection.1 with
      | some r => ⟨r.value, r.coercions, []⟩
      | none =>
          match selection.2 with
          | some b =>
              ⟨b.1, ["selected union variant with " ++ toString b.2 ++ " errors at " ++ path], []⟩
          | none =>
              match variants with
              | [] => ⟨value, [], [⟨"No matching variant in union", none, none⟩]⟩
              | v0 :: _ =>
                  let r := coerceInternalF fuel value v0 o path depth
                  ⟨r.value, r.coercions ++ ["forced union variant at " ++ path], r.errors⟩
  termination_by structural fuel _ _ _ _ _ => fuel


/-- `coerceIntersect` of the source: shallow-merge the properties of the
object members (`Object.assign` semantics) into a synthetic object schema
(`Type.Object` marks exactly the non-optional keys required and leaves
`additionalProperties` unset) and coerce against it. -/
def coerceIntersectF : Nat → JSValue → List Schema → ResolvedCoercionOptions → String → Nat → Walk
  | 0, value, _, _, _, _ => depthExceeded value
  | fuel + 1, value, allOf, o, path, depth =>
      if allOf.isEmpty then ⟨value, [], []⟩
      else
        let merged := allOf.foldl
          (fun acc sub =>
            match sub with
            | Schema.object props _ _ =>
                props.foldl
                  (fun a kv =>
                    if a.any (fun f => f.1 == kv.1) then
                      a.map fun f => if f.1 == kv.1 then kv else f
                    else a ++ [kv])
                  acc
            | _ => acc)
          ([] : List (String × PropSchema))
        let mergedRequired := (merged.filter fun kp => !(isOptionalKind kp.2.schema)).map
          fun kp => kp.1
        coerceObjectF fuel value merged mergedRequired .missing o path depth
  termination_by structural fuel _ _ _ _ _ => fuel


/-- `coerceOptional` of the source: absent inputs (unreachable, the
dispatcher handles them first) become `undefined`; otherwise coerce
against the inner schema at the same path and depth. -/
def coerceOptionalF : Nat → JSValue → Schema → ResolvedCoercionOptions → String → Nat → Walk
  | 0, value, _, _, _, _ => depthExceeded value
  | fuel + 1, value, inner, o, path, depth =>
      if isAbsent value then ⟨.undef, [], []⟩
      else coerceInternalF fuel value inner o path depth
  termination_by structural fuel _ _ _ _ _ => fuel


/-- `coerceRecord` of the source: require an object input, coerce every
value against the record's value schema (the first pattern property's
schema, else the `additionalProperties` schema, else `Any`) with
bracketed key paths. -/
def coerceRecordF : Nat → JSValue → List (String × Schema) → AddProps →
    ResolvedCoercionOptions → String → Nat → Walk
  | 0, value, _, _, _, _, _ => depthExceeded value
  | fuel + 1, value, patternProps, addl, o, path, depth =>
      match value with
      | .obj fields =>
          let valueSchema :=
            match patternProps with
            | kp :: _ => kp.2
            | [] =>
                match addl with
                | .schema s => s
                | _ => .anyT
          let rs := fields.map fun kv =>
            (kv.1, coerceInternalF fuel kv.2 valueSchema o (path ++ "[" ++ kv.1 ++ "]") (depth + 1))
          ⟨.obj (rs.map fun r => (r.1, r.2.value)), (rs.map fun r => r.2.coercions).flatten,
            (rs.map fun r => r.2.errors).flatten⟩
      | _ =>
          ⟨value, [],
            [⟨"Expected record object, got " ++ jsTypeof value, some "record",
              some (jsTypeof value)⟩]⟩
  termination_by structural fuel _ _ _ _ _ _ => fuel


/-- `coerceTuple` of the source: require an array input; present elements
coerce against their positional schemas, missing ones fall back to the
positional `default` or error; extra elements are kept verbatim unless
`additionalItems` is explicitly `false`. -/
def coerceTupleF : Nat → JSValue → List PropSchema → Option Bool →
    ResolvedCoercionOptions → String → Nat → Walk
  | 0, value, _, _, _, _, _ => depthExceeded value
  | fuel + 1, value, items, addItems, o, path, depth =>
      match value with
      | .arr xs =>
          let rs := items.enum.map fun p =>
            match xs.get? p.1 with
            | some v =>
                let r := coerceInternalF fuel v p.2.schema o
                  (path ++ "[" ++ toString p.1 ++ "]") (depth + 1)
                (r.value, r.coercions, r.errors)
            | none =>
                match p.2.dflt with
                | some d => (d, ([] : List String), ([] : List ErrItem))
                | none =>
                    (JSValue.undef, [],
                      [⟨"Missing tuple element at index " ++ toString p.1, none, none⟩])
          let extra := if addItems == some false then [] else xs.drop items.length
          ⟨.arr (rs.map (fun r => r.1) ++ extra), (rs.map fun r => r.2.1).flatten,
            (rs.map fun r => r.2.2).flatten⟩
      | _ =>
          ⟨value, [],
            [⟨"Expected tuple array, got " ++ jsTypeof value, some "tuple",
              some (jsTypeof value)⟩]⟩
  termination_by structural fuel _ _ _ _ _ _ => fuel

end

/-- `CoercionError` of the source after `coerceValue` stamps it: the path
is the one captured by the `addError` closure (the top-level `path`
parameter of `coerceValue`), and `received` defaults to `String(value)` of
the top-level value. -/
structure CoercionError where
  path : String
  message : String
  expected : Option String := none
  received : String
deriving DecidableEq

/-- `CoercionResult` of the source: the coerced value, `success` (empty
error list), the stamped errors, the trace (only under `trackCoercions`)
and the partiality flag. -/
structure CoercionResult where
  value : JSValue
  success : Bool
  errors : List CoercionError
  coercions : Option (List String)
  isPartial : Bool
deriving DecidableEq

mutual

/-- A size measure on dynamic values; string sizes count characters, so a
value a nested `JSON.parse` may produce is never larger than the string it
was parsed from. -/
def jsValueSize : JSValue → Nat
  | .undef => 1
  | .null => 1
  | .bool _ => 1
  | .num _ => 1
  | .str s => s.length + 1
  | .arr xs => jsValueSizeList xs + 1
  | .obj fs => jsValueSizeFields fs + 1

/-- Size of an element list. -/
def jsValueSizeList : List JSValue → Nat
  | [] => 0
  | v :: vs => jsValueSize v + jsValueSizeList vs + 1

/-- Size of a field list. -/
def jsValueSizeFields : List (String × JSValue) → Nat
  | [] => 0
  | kv :: fs => kv.1.length + jsValueSize kv.2 + jsValueSizeFields fs + 1

end

mutual

/-- A size measure on schemas. -/
def schemaSize : Schema → Nat
  | .string _ _ _ _ => 1
  | .number _ => 1
  | .integer _ => 1
  | .boolean => 1
  | .nullT => 1
  | .anyT => 1
  | .literal _ => 1
  | .enumT vs => vs.length + 1
  | .array items => schemaSize items + 1
  | .tuple items _ => propSchemaSizeList items + 1
  | .object props _ addl => propSchemaSizeFields props + addPropsSize addl + 1
  | .record pp addl => schemaSizeFields pp + addPropsSize addl + 1
  | .union vs => schemaSizeList vs + 1
  | .intersect vs => schemaSizeList vs + 1
  | .optional inner => schemaSize inner + 1
  | .ref _ => 1

/-- Size of a schema list. -/
def schemaSizeList : List Schema → Nat
  | [] => 0
  | s :: ss => schemaSize s + schemaSizeList ss + 1

/-- Size of a keyed schema list. -/
def schemaSizeFields : List (String × Schema) → Nat
  | [] => 0
  | ks :: ss => schemaSize ks.2 + schemaSizeFields ss + 1

/-- Size of a property-slot list. -/
def propSchemaSizeList : List PropSchema → Nat
  | [] => 0
  | p :: ps => propSchemaSize p + propSchemaSizeList ps + 1

/-- Size of a keyed property-slot list. -/
def propSchemaSizeFields : List (String × PropSchema) → Nat
  | [] => 0
  | kp :: ps => propSchemaSize kp.2 + propSchemaSizeFields ps + 1

/-- Size of a property slot. -/
def propSchemaSize : PropSchema → Nat
  | .mk s d => schemaSize s + (match d with | some v => jsValueSize v | none => 0) + 1

/-- Size of an `additionalProperties` slot. -/
def addPropsSize : AddProps → Nat
  | .missing => 0
  | .flag _ => 0
  | .schema s => schemaSize s + 1

end

/-- Fuel supplied to the walk: strictly larger than the number of
recursive steps any chain starting from these arguments can take, so the
explicit `maxDepth` guard - not fuel exhaustion - is what bounds deep
inputs, as in the source. -/
def coerceFuel (value : JSValue) (schema : Schema) (maxD : Nat) : Nat :=
  (jsValueSize value + schemaSize schema + maxD + 10) * 10

/-- `coerceValue` of the source: resolve options against the defaults, run
the walk, then package the result.  The `addError` closure of the source
is defined once here and captures this call's `path` and `value`, so every
error is stamped with the top-level path and falls back to the top-level
value's string form for `received`, whatever nested position raised it. -/
def coerceValue (value : JSValue) (schema : Schema) (options : CoercionOptions)
    (path : String := "") : CoercionResult :=
  let opts := resolveCoercionOptions options
  let walk := coerceInternalF (coerceFuel value schema opts.maxDepth) value schema opts path 0
  { value := walk.value
    success := walk.errors.isEmpty
    errors := walk.errors.map fun e =>
      { path := path, message := e.message, expected := e.expected,
        received := e.received.getD (jsToString value) }
    coercions := if opts.trackCoercions then some walk.coercions else none
    isPartial := opts.allowPartials && !(isComplete value schema) }

/-! The orchestration layer of `src/index.ts` and its collaborators.  The
JSON extractor and the chain-of-thought filter live in a source file that
is not part of the staged sources (only `src/index.ts`, their caller, is),
so they are modelled from the specification; the option plumbing around
them is translated from `src/index.ts` itself. -/

/-- First index at which `needle` occurs in `hay`. -/
def findSubstrIdx (hay needle : List Char) : Option Nat :=
  match hay with
  | [] => if needle.isEmpty then some 0 else none
  | _ :: rest =>
      if needle.isPrefixOf hay then some 0
      else (findSubstrIdx rest needle).map (· + 1)

/-- Whether `needle` occurs in `hay`. -/
def containsSubstr (hay needle : List Char) : Bool := (findSubstrIdx hay needle).isSome

/-- Modelled from the spec: §4.1 detection.  The filter reports reasoning
present when any of the case-insensitive markers occurs in the input, or
the text leads with a `first,` clause. -/
def hasChainOfThought (text : String) : Bool :=
  let lower := (jsToLower text).data
  containsSubstr lower "let me think".data ||
  containsSubstr lower "step by step".data ||
  containsSubstr lower "reasoning:".data ||
  containsSubstr lower "thinking:".data ||
  containsSubstr lower "analysis:".data ||
  containsSubstr lower "therefore".data ||
  containsSubstr lower "in conclusion".data ||
  List.isPrefixOf "first,".data (lower.dropWhile Char.isWhitespace)

/-- Earliest match index of any of the phrases (case-insensitive). -/
def earliestMarker (lower : List Char) (phrases : List String) : Option Nat :=
  phrases.foldl
    (fun acc p =>
      match findSubstrIdx lower (jsToLower p).data with
      | some i =>
          match acc with
          | some j => some (min j i)
          | none => some i
      | none => acc)
    none

/-- Modelled from the spec: §4.1 trimming.  When reasoning is present the
filter returns the suffix of the text starting at the earliest match of,
in priority order: a `here is the json` marker; an `output json` or
`therefore the output json is` marker; a `final answer:` or `answer:`
marker; the first fenced-block opening; the first `{`.  With no match the
text is returned unchanged. -/
def filterChainOfThought (text : String) : String :=
  let lower := (jsToLower text).data
  let suffixFrom (i : Nat) : String := String.mk (text.data.drop i)
  match earliestMarker lower ["here is the json"] with
  | some i => suffixFrom i
  | none =>
      match earliestMarker lower ["output json", "therefore the output json is"] with
      | some i => suffixFrom i
      | none =>
          match earliestMarker lower ["final answer:", "answer:"] with
          | some i => suffixFrom i
          | none =>
              match earliestMarker lower ["```"] with
              | some i => suffixFrom i
              | none =>
                  match earliestMarker lower ["\x7b"] with
                  | some i => suffixFrom i
                  | none => text

/-- `ParseOptions` of `src/index.ts`: extraction, coercion and
orchestration options in one bag, every field optional (`none` models an
absent key; the two `maxDepth` keys of the TS option interfaces collapse
into one, as they do in a TS object literal). -/
structure ParseOptions where
  allowMarkdownJson : Option Bool := none
  allowFixes : Option Bool := none
  allowAsString : Option Bool := none
  findAllJsonObjects : Option Bool := none
  normalizeUnicodeQuotes : Option Bool := none
  maxDepth : Option Nat := none
  allowPartials : Option Bool := none
  useDefaults : Option Bool := none
  strict : Option Bool := none
  trackCoercions : Option Bool := none
  filterChainOfThought : Option Bool := none
  returnAllCandidates : Option Bool := none
deriving DecidableEq

/-- `defaultParseOptions` of `src/index.ts` (it sets every key except
`normalizeUnicodeQuotes`). -/
def defaultParseOptions : ParseOptions :=
  { allowMarkdownJson := some true
    allowFixes := some true
    allowAsString := some true
    findAllJsonObjects := some true
    maxDepth := some 100
    allowPartials := some false
    useDefaults := some true
    strict := some false
    trackCoercions := some false
    filterChainOfThought := some true
    returnAllCandidates := some false }

/-- One field of a JS object spread `{ ...d, ...o }`: the overriding
object's key wins when present. -/
def mergeField {α : Type} (o d : Option α) : Option α :=
  match o with
  | some x => some x
  | none => d

/-- The spread merge `{ ...d, ...o }` on option bags. -/
def mergeParseOptions (d o : ParseOptions) : ParseOptions :=
  { allowMarkdownJson := mergeField o.allowMarkdownJson d.allowMarkdownJson
    allowFixes := mergeField o.allowFixes d.allowFixes
    allowAsString := mergeField o.allowAsString d.allowAsString
    findAllJsonObjects := mergeField o.findAllJsonObjects d.findAllJsonObjects
    normalizeUnicodeQuotes := mergeField o.normalizeUnicodeQuotes d.normalizeUnicodeQuotes
    maxDepth := mergeField o.maxDepth d.maxDepth
    allowPartials := mergeField o.allowPartials d.allowPartials
    useDefaults := mergeField o.useDefaults d.useDefaults
    strict := mergeField o.strict d.strict
    trackCoercions := mergeField o.trackCoercions d.trackCoercions
    filterChainOfThought := mergeField o.filterChainOfThought d.filterChainOfThought
    returnAllCandidates := mergeField o.returnAllCandidates d.returnAllCandidates }

/-- The coercion slice of a parse-option bag, as `coerceValue` receives it
when `parseResponse` passes its merged options along. -/
def coercionSlice (o : ParseOptions) : CoercionOptions :=
  { allowPartials := o.allowPartials
    useDefaults := o.useDefaults
    strict := o.strict
    maxDepth := o.maxDepth
    trackCoercions := o.trackCoercions }

/-- `ExtractionResult` of the extractor: the dynamic value plus optional
markdown / fixes / partiality metadata. -/
structure ExtractionResult where
  value : JSValue
  fromMarkdown : Option Bool := none
  fixes : Option (List String) := none
  isPartial : Option Bool := none
deriving DecidableEq

/-- Replace the four typographic quote code points by their ASCII
counterparts (spec §4.2 pre-processing). -/
def replaceSmartQuotes (cs : List Char) : List Char :=
  cs.map fun c =>
    if c = '“' || c = '”' then '"'
    else if c = '‘' || c = '’' then '\''
    else c

/-- Trim JS-style from both ends. -/
def trimChars (cs : List Char) : List Char :=
  ((cs.dropWhile Char.isWhitespace).reverse.dropWhile Char.isWhitespace).reverse

/-- Modelled from the spec: the "looks like JSON" test of strategy 1 -
after trimming, the first and last characters form a matched `{}`, `[]` or
`""` pair, or the text is a numeric, `true`, `false` or `null` literal. -/
def looksLikeJson (cs : List Char) : Bool :=
  let t := trimChars cs
  match t.head?, t.getLast? with
  | some '\x7b', some '\x7d' => true
  | some '[', some ']' => true
  | some '"', some '"' => t.length ≥ 2
  | _, _ =>
      t = "true".data || t = "false".data || t = "null".data ||
      (match parseJsonNumber t with
       | some (_, []) => true
       | _ => false)

/-- Modelled from the spec: strategy 4's first rewrite - drop a comma
standing (up to whitespace) immediately before a closing brace or
bracket. -/
def dropTrailingCommas : List Char → List Char
  | [] => []
  | ',' :: rest =>
      let after := rest.dropWhile jsonWsChar
      (match after with
       | '\x7d' :: _ => dropTrailingCommas rest
       | ']' :: _ => dropTrailingCommas rest
       | _ => ',' :: dropTrailingCommas rest)
  | c :: rest => c :: dropTrailingCommas rest

/-- A bare-identifier character (`[A-Za-z0-9_$]`). -/
def identChar (c : Char) : Bool :=
  c.isAlpha || c.isDigit || c = '_' || c = '$'

/-- Modelled from the spec: strategy 4's second rewrite - convert a
single-quoted object key (quote, identifier, quote, colon) to a
double-quoted key. -/
def quoteSingleKeys : Nat → List Char → List Char
  | 0, cs => cs
  | _ + 1, [] => []
  | fuel + 1, '\'' :: rest =>
      let ident := rest.takeWhile identChar
      let after := rest.drop ident.length
      (match after with
       | '\'' :: after2 =>
           if !ident.isEmpty && (after2.dropWhile jsonWsChar).head? = some ':' then
             '"' :: ident ++ '"' :: quoteSingleKeys fuel after2
           else '\'' :: quoteSingleKeys fuel rest
       | _ => '\'' :: quoteSingleKeys fuel rest)
  | fuel + 1, c :: rest => c :: quoteSingleKeys fuel rest

/-- Modelled from the spec: strategy 4's third rewrite - add double
quotes around a bare identifier key (`[A-Za-z_$][A-Za-z0-9_$]*`) standing
in object position (after `{` or `,`) and followed by a colon. -/
def quoteBareKeys : Nat → List Char → List Char
  | 0, cs => cs
  | _ + 1, [] => []
  | fuel + 1, c :: rest =>
      if c = '\x7b' || c = ',' then
        let ws := rest.takeWhile jsonWsChar
        let afterWs := rest.drop ws.length
        let ident := afterWs.takeWhile identChar
        let afterIdent := afterWs.drop ident.length
        if !ident.isEmpty && (match ident.head? with
              | some h => h.isAlpha || h = '_' || h = '$'
              | none => false) &&
            (afterIdent.dropWhile jsonWsChar).head? = some ':' then
          c :: ws ++ '"' :: ident ++ '"' :: quoteBareKeys fuel afterIdent
        else c :: quoteBareKeys fuel rest
      else c :: quoteBareKeys fuel rest

/-- Modelled from the spec: strategy 4's rewrites applied in order (each
pass consumes at least one character per fuel unit, so the supplied fuel
is never exhausted). -/
def repairText (cs : List Char) : List Char :=
  let s1 := dropTrailingCommas cs
  let s2 := quoteSingleKeys (s1.length + 1) s1
  quoteBareKeys (s2.length + 1) s2

/-- Modelled from the spec: strategy 5 - append the missing number of `}`
and `]`, in that order. -/
def completeBrackets (cs : List Char) : List Char :=
  let opensCurly := (cs.filter (· = '\x7b')).length
  let closesCurly := (cs.filter (· = '\x7d')).length
  let opensSq := (cs.filter (· = '[')).length
  let closesSq := (cs.filter (· = ']')).length
  cs ++ List.replicate (opensCurly - closesCurly) '\x7d' ++
    List.replicate (opensSq - closesSq) ']'

/-- Modelled from the spec: the fenced-block scanner of strategy 2 -
`\x60\x60\x60` fences with an optional language tag on the fence line,
yielding (tag, body) pairs. -/
def scanFences : Nat → List Char → List (List Char × List Char)
  | 0, _ => []
  | fuel + 1, cs =>
      match findSubstrIdx cs "```".data with
      | none => []
      | some i =>
          let afterOpen := cs.drop (i + 3)
          let tag := afterOpen.takeWhile fun c => c.isAlpha
          let afterTag := afterOpen.drop tag.length
          let body0 := if afterTag.head? = some '\n' then afterTag.drop 1 else afterTag
          match findSubstrIdx body0 "```".data with
          | none => []
          | some j =>
              (tag, body0.take j) :: scanFences fuel (body0.drop (j + 3))

/-- Modelled from the spec: the non-nesting candidate scan of strategy 3
(the lazy regex `\x7b[\s\S]*?\x7d|\[[\s\S]*?\]`): from each opener, the
shortest run to the matching closer character, scanning left to right
without overlap. -/
def scanCandidates : Nat → List Char → List (List Char)
  | 0, _ => []
  | fuel + 1, cs =>
      match cs with
      | [] => []
      | c :: rest =>
          if c = '\x7b' then
            match findSubstrIdx rest ['\x7d'] with
            | some j => (c :: rest.take (j + 1)) :: scanCandidates fuel (rest.drop (j + 1))
            | none => []
          else if c = '[' then
            match findSubstrIdx rest [']'] with
            | some j => (c :: rest.take (j + 1)) :: scanCandidates fuel (rest.drop (j + 1))
            | none => []
          else scanCandidates fuel rest

/-- A fenced block qualifies when its tag is `json`, `javascript`, `js`
or empty, or its body looks like JSON (spec §4.2 strategy 2). -/
def fenceQualifies (tag body : List Char) : Bool :=
  tag = "json".data || tag = "javascript".data || tag = "js".data || tag.isEmpty ||
    looksLikeJson body

/-- Modelled from the spec: strategies 3-6 of the ladder (split out of
`extractJson` for the termination argument; `extractJson` recurses only
into fenced blocks). -/
def extractTail (fuel : Nat) (normalized : List Char) (text : String) (opts : ParseOptions)
    (inputComplete : Bool) (fixes0 : List String) : Except String ExtractionResult :=
  let withFixes : List String → Option (List String) := fun fs =>
    if (fixes0 ++ fs).isEmpty then none else some (fixes0 ++ fs)
  let candidates :=
    if opts.findAllJsonObjects.getD true then scanCandidates (fuel + 1) normalized
    else []
  let strictParsed := (candidates.map fun c => jsonParse (String.mk c)).filterMap id
  let candidateValues :=
    if strictParsed.isEmpty then
      (candidates.map fun c => jsonParse (String.mk (repairText c))).filterMap id
    else strictParsed
  match candidateValues with
  | [v] => .ok { value := v, fixes := withFixes [] }
  | _ :: _ :: _ => .ok { value := .arr candidateValues, fixes := withFixes [] }
  | [] =>
      let repaired := repairText normalized
      match (if opts.allowFixes.getD true then jsonParse (String.mk repaired) else none) with
      | some v => .ok { value := v, fixes := withFixes ["applied_auto_fixes"] }
      | none =>
          match (if opts.allowFixes.getD true then
                   jsonParse (String.mk (completeBrackets repaired))
                 else none) with
          | some v =>
              .ok { value := v, fixes := withFixes ["applied_auto_fixes", "extracted_partial"],
                    isPartial := some true }
          | none =>
              if opts.allowAsString.getD true then
                .ok { value := .str text, fixes := withFixes [],
                      isPartial := some (!inputComplete) }
              else .error "No JSON found in response"
/-- Modelled from the spec: §4.2, the JSON extractor's strategy ladder.
Strategies run in order - direct parse of JSON-looking text, fenced-block
extraction (recursing into a single qualifying block), the multi-object
scan, the repair rewrites, bracket completion of the repaired text, and
the string fallback - each aborting the ladder on first success;
`Except.error` is the thrown extraction failure.  The typographic-quote
pre-processing feeds only the recognition attempts: the string fallback
returns the original text. -/
def extractJson : Nat → String → ParseOptions → Bool → Nat → Except String ExtractionResult
  | 0, _, _, _, _ => .error "Maximum extraction depth exceeded"
  | fuel + 1, text, opts, inputComplete, depth =>
      if depth > opts.maxDepth.getD 100 then .error "Maximum extraction depth exceeded"
      else
        let normalized :=
          if opts.normalizeUnicodeQuotes.getD true then replaceSmartQuotes text.data
          else text.data
        let fixes0 : List String :=
          if normalized ≠ text.data then ["normalized_unicode_quotes"] else []
        let withFixes : List String → Option (List String) := fun fs =>
          if (fixes0 ++ fs).isEmpty then none else some (fixes0 ++ fs)
        let strict1 : Option JSValue :=
          if looksLikeJson normalized then jsonParse (String.mk (trimChars normalized))
          else none
        match strict1 with
        | some v => .ok { value := v, fixes := withFixes [] }
        | none =>
            let fences :=
              if opts.allowMarkdownJson.getD true then
                (scanFences (text.length + 1) normalized).filter fun f =>
                  fenceQualifies f.1 (trimChars f.2)
              else []
            match fences with
            | [f] =>
                (match extractJson fuel (String.mk f.2) opts inputComplete (depth + 1) with
                 | .ok r =>
                     .ok { r with fromMarkdown := some true,
                                  fixes := withFixes ((r.fixes).getD []) }
                 | .error _ => extractTail fuel normalized text opts inputComplete fixes0)
            | [] => extractTail fuel normalized text opts inputComplete fixes0
            | _ =>
                let parsedBlocks := (fences.map fun f => jsonParse (String.mk (trimChars f.2)))
                  |>.filterMap id
                (match parsedBlocks with
                 | [v] => .ok { value := v, fromMarkdown := some true, fixes := withFixes [] }
                 | [] =>
                     let repaired := (fences.map fun f =>
                       jsonParse (String.mk (repairText (trimChars f.2)))).filterMap id
                     (match repaired with
                      | [] => extractTail fuel normalized text opts inputComplete fixes0
                      | [v] =>
                          .ok { value := v, fromMarkdown := some true,
                                fixes := withFixes ["applied_auto_fixes"] }
                      | vs =>
                          .ok { value := .arr vs, fromMarkdown := some true,
                                fixes := withFixes ["applied_auto_fixes"] })
                 | vs => .ok { value := .arr vs, fromMarkdown := some true, fixes := withFixes [] })


/-- One `{path, message}` entry of a `ParseResult`'s error list. -/
structure ParseErrorEntry where
  path : String
  message : String
deriving DecidableEq

/-- The `meta` block of a `ParseResult`. -/
structure ParseMeta where
  raw : String
  fromMarkdown : Option Bool := none
  chainOfThoughtFiltered : Bool := false
  fixes : Option (List String) := none
  coercions : Option (List String) := none
deriving DecidableEq

/-- `ParseResult` of `src/index.ts`. -/
structure ParseResult where
  success : Bool
  value : JSValue
  errors : List ParseErrorEntry
  isPartial : Bool
  meta : ParseMeta
deriving DecidableEq

/-- The body of `parseResponse` after its option merge: filter
chain-of-thought, extract, coerce, package (`src/index.ts`). -/
def parseResponseResolved (response : String) (schema : Schema) (opts : ParseOptions) :
    ParseResult :=
  let filterStep : String × Bool :=
    if opts.filterChainOfThought.getD true && hasChainOfThought response then
      let t := filterChainOfThought response
      (t, t ≠ response)
    else (response, false)
  match extractJson (opts.maxDepth.getD 100 + 2) filterStep.1 opts true 0 with
  | .error msg =>
      { success := false
        value := .undef
        errors := [⟨"", "JSON extraction failed: " ++ msg⟩]
        isPartial := false
        meta := { raw := response, chainOfThoughtFiltered := filterStep.2 } }
  | .ok extraction =>
      let coercion := coerceValue extraction.value schema (coercionSlice opts)
      { success := coercion.success
        value := coercion.value
        errors := coercion.errors.map fun e => ⟨e.path, e.message⟩
        isPartial := coercion.isPartial
        meta :=
          { raw := response
            fromMarkdown := extraction.fromMarkdown
            chainOfThoughtFiltered := filterStep.2
            fixes := extraction.fixes
            coercions := coercion.coercions } }

/-- `parseResponse` of `src/index.ts`: merge the caller's options over the
defaults and run the pipeline. -/
def parseResponse (response : String) (schema : Schema) (options : ParseOptions) :
    ParseResult :=
  parseResponseResolved response schema (mergeParseOptions defaultParseOptions options)

/-- `parsePartialResponse` of `src/index.ts`: merge the caller's options
over the defaults, force `allowPartials` and `allowAsString` on, and call
`parseResponse` with the result. -/
def parsePartialResponse (partialResponse : String) (schema : Schema)
    (options : ParseOptions) : ParseResult :=
  let opts := { mergeParseOptions defaultParseOptions options with
    allowPartials := some true, allowAsString := some true }
  parseResponse partialResponse schema opts

/-! Lemmas and claim theorems. -/

@[simp] lemma isAbsent_null : isAbsent .null = true := rfl

@[simp] lemma isAbsent_undef : isAbsent .undef = true := rfl

@[simp] lemma isAbsent_bool (b : Bool) : isAbsent (.bool b) = false := rfl

@[simp] lemma isAbsent_num (d : JsDec) : isAbsent (.num d) = false := rfl

@[simp] lemma isAbsent_str (s : String) : isAbsent (.str s) = false := rfl

@[simp] lemma isAbsent_arr (xs : List JSValue) : isAbsent (.arr xs) = false := rfl

@[simp] lemma isAbsent_obj (fs : List (String × JSValue)) : isAbsent (.obj fs) = false := rfl

lemma coerceFuel_pos (v : JSValue) (s : Schema) (maxD : Nat) :
    coerceFuel v s maxD = (coerceFuel v s maxD - 1) + 1 := by
  unfold coerceFuel
  omega

/-- An absent input short-circuits the walk to `null` at any positive
fuel. -/
lemma coerceInternalF_absent (fuel : Nat) (v : JSValue) (s : Schema)
    (o : ResolvedCoercionOptions) (p : String) (h : isAbsent v = true) :
    coerceInternalF (fuel + 1) v s o p 0 = ⟨.null, [], []⟩ := by
  simp [coerceInternalF, h, coerceNull]

/-- C9: a top-level `null` or `undefined` input coerces to `null` with no
errors against every schema when `allowPartials` is left at its default
`false`. -/
theorem C9_null_passthrough (s : Schema) (o : CoercionOptions) (p : String)
    (h : o.allowPartials = none ∨ o.allowPartials = some false) :
    coerceValue .null s o p =
      { value := .null, success := true, errors := [],
        coercions := if (resolveCoercionOptions o).trackCoercions then some [] else none,
        isPartial := false } ∧
    coerceValue .undef s o p =
      { value := .null, success := true, errors := [],
        coercions := if (resolveCoercionOptions o).trackCoercions then some [] else none,
        isPartial := false } := by
  have hap : (resolveCoercionOptions o).allowPartials = false := by
    rcases h with h | h <;> simp [resolveCoercionOptions, defaultCoercionOptions, h]
  constructor <;>
    · simp only [coerceValue]
      rw [coerceFuel_pos, coerceInternalF_absent _ _ _ _ _ (by rfl)]
      simp [hap]

/-- Concrete instance of `C9_null_passthrough` (default options, Boolean
target). -/
theorem C9_null_passthrough_witness :
    (({} : CoercionOptions).allowPartials = none ∨
      ({} : CoercionOptions).allowPartials = some false) ∧
    (coerceValue .null .boolean {} "" =
      { value := .null, success := true, errors := [],
        coercions := if (resolveCoercionOptions {}).trackCoercions then some [] else none,
        isPartial := false } ∧
    coerceValue .undef .boolean {} "" =
      { value := .null, success := true, errors := [],
        coercions := if (resolveCoercionOptions {}).trackCoercions then some [] else none,
        isPartial := false }) :=
  ⟨Or.inl rfl, C9_null_passthrough .boolean {} "" (Or.inl rfl)⟩

/-- C3: coercing `{"age": -5}` against `Object{age: Number(minimum 0)}`
with `age` required fails with a minimum-violation error, but the error
is stamped with the top-level path `""` - not `"age"` - because the
`addError` closure captures `coerceValue`'s own `path` parameter (the
positional paths reach only the coercion notes). -/
theorem C3_error_path_evaluation :
    coerceValue (.obj [("age", .num (-5))])
      (.object [("age", .mk (.number { minimum := some 0 }) none)] ["age"] .missing) {} "" =
      { value := .obj [("age", .num (-5))], success := false,
        errors := [{ path := "", message := "Number below minimum (0)",
                     expected := some ">= 0", received := "-5" }],
        coercions := none, isPartial := false } := by decide

/-- C5 counterexample: with `allowPartials` on, an Object target with no
required fields and the present (non-null, non-undefined) input `5` is
reported partial, while the claim's three rules all fail to apply and so
predict `isPartial = false`. -/
theorem C5_counterexample :
    (coerceValue (.num 5) (.object [] [] .missing)
        { allowPartials := some true } "").isPartial = true ∧
    JSValue.num 5 ≠ .null ∧ JSValue.num 5 ≠ .undef := by decide

/-- The amended completeness rules: for an Object target the input is
incomplete when it is not a (non-null) object value or some required
declared property is absent from it; for an Array target when it is not
an array or is empty; for any other target when it is absent. -/
def isIncompleteAmended (v : JSValue) (s : Schema) : Bool :=
  match s with
  | .object properties required _ =>
      (match v with
       | .obj _ => properties.any fun kp => required.contains kp.1 && !(jsIn kp.1 v)
       | .arr _ => properties.any fun kp => required.contains kp.1 && !(jsIn kp.1 v)
       | _ => true)
  | .array _ =>
      (match v with
       | .arr xs => xs.isEmpty
       | _ => true)
  | _ => isAbsent v

lemma all_eq_not_any_not {α : Type} (l : List α) (f : α → Bool) :
    l.all f = !(l.any fun x => !f x) := by
  induction l with
  | nil => rfl
  | cons x xs ih => simp [List.all_cons, List.any_cons, ih]

lemma any_ext {α : Type} (l : List α) (f g : α → Bool) (h : ∀ x, f x = g x) :
    l.any f = l.any g := by
  induction l with
  | nil => rfl
  | cons x xs ih => simp [List.any_cons, ih, h]

lemma not_isComplete_eq_isIncompleteAmended (v : JSValue) (s : Schema) :
    (!isComplete v s) = isIncompleteAmended v s := by
  cases s <;> cases v <;>
    simp only [isComplete, isIncompleteAmended, all_eq_not_any_not, isAbsent,
      Bool.not_or, Bool.not_not, Bool.not_and, Bool.or_comm, Bool.not_false,
      Bool.not_true] <;>
    first
      | rfl
      | (exact any_ext _ _ _ fun kp => Bool.and_comm _ _)
      | (rename_i xs
         cases xs <;> simp)

/-- C5 amended: `isPartial` is exactly `allowPartials` (resolved against
the defaults) conjoined with the amended incompleteness rules of
`isIncompleteAmended`. -/
theorem C5_isPartial_characterization (v : JSValue) (s : Schema) (o : CoercionOptions)
    (p : String) :
    (coerceValue v s o p).isPartial =
      ((resolveCoercionOptions o).allowPartials && isIncompleteAmended v s) := by
  simp only [coerceValue]
  rw [← not_isComplete_eq_isIncompleteAmended]

/-- At positive fuel and depth `0`, a present value against the `Boolean`
kind dispatches to `coerceBoolean`. -/
lemma coerceInternalF_boolean (fuel : Nat) (v : JSValue) (o : ResolvedCoercionOptions)
    (p : String) (h : isAbsent v = false) :
    coerceInternalF (fuel + 1) v .boolean o p 0 = coerceBoolean v p := by
  simp [coerceInternalF, h]

/-- C6 counterexample: a `null` input against a Boolean target emits no
error and yields `null` (the top-level absent-value rule runs before the
boolean coercion), while the claim counts `null` among the "every other
input" cases that must error and pass through unchanged. -/
theorem C6_counterexample :
    coerceValue .null .boolean {} "" =
      { value := .null, success := true, errors := [], coercions := none,
        isPartial := false } := by decide

/-- Definitional unfolding of `coerceBoolean` on a string input. -/
lemma coerceBoolean_str (s : String) (p : String) :
    coerceBoolean (.str s) p =
      (if jsToLower s == "true" || jsToLower s == "1" || jsToLower s == "yes" then
        (⟨.bool true, [], []⟩ : Walk)
      else if jsToLower s == "false" || jsToLower s == "0" || jsToLower s == "no" ||
          jsToLower s == "" then ⟨.bool false, [], []⟩
      else ⟨.str s, [], [⟨"Cannot coerce to boolean", some "boolean", some s⟩]⟩) := rfl

/-- C6 amended: the Boolean coercion table, with absent inputs excepted
(they coerce to `null` with no error, which corrects the claim's "every
other input emits an error"): booleans pass through; the case-insensitive
strings `true`/`1`/`yes` map to `true` and `false`/`0`/`no`/the empty
string to `false`; any other string errors and passes through; numbers map
to `value ≠ 0`; arrays and objects error and pass through. -/
theorem C6_boolean_coercion (o : CoercionOptions) (p : String) :
    (∀ b, (coerceValue (.bool b) .boolean o p).value = .bool b ∧
      (coerceValue (.bool b) .boolean o p).errors = []) ∧
    (∀ s, (jsToLower s = "true" ∨ jsToLower s = "1" ∨ jsToLower s = "yes") →
      (coerceValue (.str s) .boolean o p).value = .bool true ∧
      (coerceValue (.str s) .boolean o p).errors = []) ∧
    (∀ s, (jsToLower s = "false" ∨ jsToLower s = "0" ∨ jsToLower s = "no" ∨ jsToLower s = "") →
      (coerceValue (.str s) .boolean o p).value = .bool false ∧
      (coerceValue (.str s) .boolean o p).errors = []) ∧
    (∀ s, ¬(jsToLower s = "true" ∨ jsToLower s = "1" ∨ jsToLower s = "yes") →
      ¬(jsToLower s = "false" ∨ jsToLower s = "0" ∨ jsToLower s = "no" ∨ jsToLower s = "") →
      (coerceValue (.str s) .boolean o p).value = .str s ∧
      (coerceValue (.str s) .boolean o p).errors =
        [⟨p, "Cannot coerce to boolean", some "boolean", s⟩]) ∧
    (∀ d, (coerceValue (.num d) .boolean o p).value = .bool (!(d == (0 : JsDec))) ∧
      (coerceValue (.num d) .boolean o p).errors = []) ∧
    ((coerceValue .null .boolean o p).value = .null ∧
      (coerceValue .null .boolean o p).errors = []) ∧
    ((coerceValue .undef .boolean o p).value = .null ∧
      (coerceValue .undef .boolean o p).errors = []) ∧
    (∀ xs, (coerceValue (.arr xs) .boolean o p).value = .arr xs ∧
      (coerceValue (.arr xs) .boolean o p).errors =
        [⟨p, "Cannot coerce to boolean", some "boolean", jsToString (.arr xs)⟩]) ∧
    (∀ fs, (coerceValue (.obj fs) .boolean o p).value = .obj fs ∧
      (coerceValue (.obj fs) .boolean o p).errors =
        [⟨p, "Cannot coerce to boolean", some "boolean", jsToString (.obj fs)⟩]) := by
  have hstr : ∀ s, coerceValue (.str s) .boolean o p =
      { value := (coerceBoolean (.str s) p).value,
        success := (coerceBoolean (.str s) p).errors.isEmpty,
        errors := (coerceBoolean (.str s) p).errors.map fun e =>
          { path := p, message := e.message, expected := e.expected,
            received := e.received.getD (jsToString (.str s)) },
        coercions := if (resolveCoercionOptions o).trackCoercions then
          some (coerceBoolean (.str s) p).coercions else none,
        isPartial := (resolveCoercionOptions o).allowPartials &&
          !(isComplete (.str s) .boolean) } := by
    intro s
    simp only [coerceValue]
    rw [coerceFuel_pos, coerceInternalF_boolean _ _ _ _ (by rfl)]
  refine ⟨fun b => ?_, fun s h => ?_, fun s h => ?_, fun s h1 h2 => ?_, fun d => ?_, ?_, ?_,
    fun xs => ?_, fun fs => ?_⟩
  · simp only [coerceValue]
    rw [coerceFuel_pos, coerceInternalF_boolean _ _ _ _ (by rfl)]
    exact ⟨rfl, rfl⟩
  · rw [hstr, coerceBoolean_str]
    have hc : (jsToLower s == "true" || jsToLower s == "1" || jsToLower s == "yes") = true := by
      rcases h with h | h | h <;> rw [h] <;> rfl
    rw [hc]
    exact ⟨rfl, rfl⟩
  · rw [hstr, coerceBoolean_str]
    have hc1 : (jsToLower s == "true" || jsToLower s == "1" || jsToLower s == "yes")
        = false := by
      rcases h with h | h | h | h <;> rw [h] <;> rfl
    have hc2 : (jsToLower s == "false" || jsToLower s == "0" || jsToLower s == "no" ||
        jsToLower s == "") = true := by
      rcases h with h | h | h | h <;> rw [h] <;> rfl
    rw [hc1, hc2]
    exact ⟨rfl, rfl⟩
  · rw [hstr, coerceBoolean_str]
    simp only [not_or] at h1 h2
    have hc1 : (jsToLower s == "true" || jsToLower s == "1" || jsToLower s == "yes")
        = false := by
      simp only [Bool.or_eq_false_iff, beq_eq_false_iff_ne, ne_eq]
      exact ⟨⟨h1.1, h1.2.1⟩, h1.2.2⟩
    have hc2 : (jsToLower s == "false" || jsToLower s == "0" || jsToLower s == "no" ||
        jsToLower s == "") = false := by
      simp only [Bool.or_eq_false_iff, beq_eq_false_iff_ne, ne_eq]
      exact ⟨⟨⟨h2.1, h2.2.1⟩, h2.2.2.1⟩, h2.2.2.2⟩
    rw [hc1, hc2]
    exact ⟨rfl, rfl⟩
  · simp only [coerceValue]
    rw [coerceFuel_pos, coerceInternalF_boolean _ _ _ _ (by rfl)]
    exact ⟨rfl, rfl⟩
  · simp only [coerceValue]
    rw [coerceFuel_pos, coerceInternalF_absent _ _ _ _ _ (by rfl)]
    exact ⟨rfl, rfl⟩
  · simp only [coerceValue]
    rw [coerceFuel_pos, coerceInternalF_absent _ _ _ _ _ (by rfl)]
    exact ⟨rfl, rfl⟩
  · simp only [coerceValue]
    rw [coerceFuel_pos, coerceInternalF_boolean _ _ _ _ (by rfl)]
    exact ⟨rfl, rfl⟩
  · simp only [coerceValue]
    rw [coerceFuel_pos, coerceInternalF_boolean _ _ _ _ (by rfl)]
    exact ⟨rfl, rfl⟩

/-- Concrete instances of `C6_boolean_coercion`: the truthy-string,
falsy-string and unmapped-string rows of the table. -/
theorem C6_boolean_coercion_witness :
    (jsToLower "YES" = "true" ∨ jsToLower "YES" = "1" ∨ jsToLower "YES" = "yes") ∧
    (coerceValue (.str "YES") .boolean {} "").value = .bool true ∧
    (jsToLower "" = "false" ∨ jsToLower "" = "0" ∨ jsToLower "" = "no" ∨ jsToLower "" = "") ∧
    (coerceValue (.str "") .boolean {} "").value = .bool false ∧
    (coerceValue (.str "hmm") .boolean {} "").errors =
      [⟨"", "Cannot coerce to boolean", some "boolean", "hmm"⟩] :=
  ⟨Or.inr (Or.inr (by decide)),
    ((C6_boolean_coercion {} "").2.1 "YES" (Or.inr (Or.inr (by decide)))).1,
    Or.inr (Or.inr (Or.inr (by decide))),
    ((C6_boolean_coercion {} "").2.2.1 "" (Or.inr (Or.inr (Or.inr (by decide))))).1,
    ((C6_boolean_coercion {} "").2.2.2.1 "hmm" (by decide) (by decide)).2⟩

/-- `coerceValue` as a function of its walk's outcome. -/
lemma coerceValue_walk_eq (v : JSValue) (s : Schema) (o : CoercionOptions) (p : String)
    (w : Walk)
    (h : coerceInternalF (coerceFuel v s (resolveCoercionOptions o).maxDepth) v s
      (resolveCoercionOptions o) p 0 = w) :
    coerceValue v s o p =
      { value := w.value
        success := w.errors.isEmpty
        errors := w.errors.map fun e =>
          { path := p, message := e.message, expected := e.expected,
            received := e.received.getD (jsToString v) }
        coercions := if (resolveCoercionOptions o).trackCoercions then some w.coercions else none
        isPartial := (resolveCoercionOptions o).allowPartials && !(isComplete v s) } := by
  simp only [coerceValue, h]

/-- At positive fuel and depth `0`, a present value against the `String`
kind dispatches to `coerceString`. -/
lemma coerceInternalF_string (fuel : Nat) (v : JSValue) (mn mx : Option Nat)
    (pat : Option JsRegex) (fmt : Option String) (o : ResolvedCoercionOptions)
    (p : String) (h : isAbsent v = false) :
    coerceInternalF (fuel + 1) v (.string mn mx pat fmt) o p 0 =
      coerceString v mn mx pat fmt p := by
  simp [coerceInternalF, h]

/-- Definitional unfolding of `coerceString` on a string input. -/
lemma coerceString_str (s : String) (mn mx : Option Nat) (pat : Option JsRegex)
    (fmt : Option String) (p : String) :
    coerceString (.str s) mn mx pat fmt p =
      ⟨.str s, [],
        (match mn with
         | some n =>
             if s.length < n then
               [⟨"String too short (min " ++ toString n ++ ")",
                 some ("minLength " ++ toString n), some (toString s.length)⟩]
             else []
         | none => []) ++
        (match mx with
         | some n =>
             if s.length > n then
               [⟨"String too long (max " ++ toString n ++ ")",
                 some ("maxLength " ++ toString n), some (toString s.length)⟩]
             else []
         | none => []) ++
        (match pat with
         | some rx =>
             if !(rx.test s) then
               [⟨"String does not match pattern /" ++ rx.source ++ "/",
                 some ("pattern " ++ rx.source), some s⟩]
             else []
         | none => [])⟩ := rfl

/-- C4 counterexample: a string input that does not satisfy a declared
`format` constraint (here `format: "email"`) coerces with no error at all
and `success = true` - the source never validates `format`, while the
claim requires a violated format constraint to add an error. -/
theorem C4_counterexample :
    coerceValue (.str "not-an-email") (.string none none none (some "email")) {} "" =
      { value := .str "not-an-email", success := true, errors := [], coercions := none,
        isPartial := false } := by decide

/-- C4 amended: a string input is returned unchanged; each violated
constraint among `min_length`, `max_length` and `pattern` adds one error
(in that order) without rejecting the value; the `format` constraint is
never validated - the result does not depend on it at all. -/
theorem C4_string_constraints (s : String) (mn mx : Option Nat) (pat : Option JsRegex)
    (fmt fmt' : Option String) (o : CoercionOptions) (p : String) :
    (coerceValue (.str s) (.string mn mx pat fmt) o p).value = .str s ∧
    (coerceValue (.str s) (.string mn mx pat fmt) o p).errors =
      ((match mn with
        | some n =>
            if s.length < n then
              [⟨p, "String too short (min " ++ toString n ++ ")",
                some ("minLength " ++ toString n), toString s.length⟩]
            else []
        | none => []) ++
       (match mx with
        | some n =>
            if s.length > n then
              [⟨p, "String too long (max " ++ toString n ++ ")",
                some ("maxLength " ++ toString n), toString s.length⟩]
            else []
        | none => []) ++
       (match pat with
        | some rx =>
            if !(rx.test s) then
              [⟨p, "String does not match pattern /" ++ rx.source ++ "/",
                some ("pattern " ++ rx.source), s⟩]
            else []
        | none => [])) ∧
    coerceValue (.str s) (.string mn mx pat fmt) o p =
      coerceValue (.str s) (.string mn mx pat fmt') o p := by
  have hw : ∀ f, coerceInternalF
      (coerceFuel (.str s) (.string mn mx pat f) (resolveCoercionOptions o).maxDepth)
      (.str s) (.string mn mx pat f) (resolveCoercionOptions o) p 0 =
      coerceString (.str s) mn mx pat f p := by
    intro f
    rw [coerceFuel_pos]
    exact coerceInternalF_string _ _ _ _ _ _ _ _ (by rfl)
  refine ⟨?_, ?_, ?_⟩
  · rw [coerceValue_walk_eq _ _ _ _ _ (hw fmt), coerceString_str]
  · rw [coerceValue_walk_eq _ _ _ _ _ (hw fmt), coerceString_str]
    show List.map _ _ = _
    rw [List.map_append, List.map_append]
    refine congrArg₂ _ (congrArg₂ _ ?_ ?_) ?_ <;>
      cases mn <;> cases mx <;> cases pat <;>
        first
          | rfl
          | (split <;> first | rfl | (split <;> rfl))
  · rw [coerceValue_walk_eq _ _ _ _ _ (hw fmt), coerceValue_walk_eq _ _ _ _ _ (hw fmt')]
    rfl

lemma digit_not_ws (c : Char) (h : c.isDigit = true) : c.isWhitespace = false := by
  by_contra hws
  rw [Bool.not_eq_false] at hws
  simp only [Char.isWhitespace, Bool.or_eq_true, decide_eq_true_eq] at hws
  rcases hws with ((h1 | h1) | h1) | h1 <;> subst h1 <;> exact absurd h (by decide)

lemma takeWhile_all_append (p : Char → Bool) (l1 l2 : List Char)
    (h1 : ∀ c ∈ l1, p c = true) (h2 : ∀ c, l2.head? = some c → p c = false) :
    (l1 ++ l2).takeWhile p = l1 := by
  induction l1 with
  | nil =>
      cases l2 with
      | nil => rfl
      | cons c tl => simp [List.takeWhile_cons, h2 c rfl]
  | cons c tl ih =>
      simp [List.takeWhile_cons, h1 c (List.mem_cons_self c tl)]
      exact ih fun x hx => h1 x (List.mem_cons_of_mem _ hx)

/-- On input led by a decimal digit, `parseSign` consumes nothing. -/
lemma parseSign_digit (c : Char) (l : List Char) (h : c.isDigit = true) :
    parseSign (c :: l) = (1, c :: l) := by
  unfold parseSign
  split
  · rename_i heq
    injection heq with h1 _
    rw [h1] at h
    exact absurd h (by decide)
  · rename_i heq
    injection heq with h1 _
    rw [h1] at h
    exact absurd h (by decide)
  · rfl

/-- `parseInt(s, 10)` on a string led by a maximal non-empty run of
decimal digits yields the value of that run. -/
lemma jsParseInt_digit_run (d rest : String) (hne : d.data ≠ [])
    (hdig : ∀ c ∈ d.data, c.isDigit = true)
    (hrest : ∀ c, rest.data.head? = some c → c.isDigit = false) :
    jsParseInt (d ++ rest) = some ((digitsToNat d.data : ℤ)) := by
  obtain ⟨c0, tl, hc⟩ := List.exists_cons_of_ne_nil hne
  have hc0 : c0.isDigit = true := hdig c0 (by rw [hc]; exact List.mem_cons_self _ _)
  have hws : c0.isWhitespace = false := digit_not_ws c0 hc0
  have htake : (d.data ++ rest.data).takeWhile Char.isDigit = d.data :=
    takeWhile_all_append _ _ _ hdig hrest
  have hskip : skipJsWs (d.data ++ rest.data) = d.data ++ rest.data := by
    rw [hc]
    simp only [skipJsWs, List.cons_append, List.dropWhile_cons, hws, Bool.false_eq_true,
      if_false]
  have hsign : parseSign (d.data ++ rest.data) = (1, d.data ++ rest.data) := by
    rw [hc]
    exact parseSign_digit c0 (tl ++ rest.data) hc0
  have hemp : d.data.isEmpty = false := by
    rw [hc]; rfl
  unfold jsParseInt
  rw [String.data_append, hskip]
  simp only [hsign, htake, hemp, Bool.false_eq_true, if_false, one_mul]

/-- On input not led by a dot, `parseFracPart` consumes nothing. -/
lemma parseFracPart_not_dot (cs : List Char) (h : ∀ c, cs.head? = some c → c ≠ '.') :
    parseFracPart cs = ([], cs) := by
  cases cs with
  | nil => rfl
  | cons c rest =>
      have hc := h c rfl
      unfold parseFracPart
      split
      · rename_i heq
        injection heq with h1 _
        exact absurd h1 hc
      · rfl

/-- On input not led by an exponent marker, `parseExpPart` is zero. -/
lemma parseExpPart_not_e (cs : List Char) (h : ∀ c, cs.head? = some c → c ≠ 'e' ∧ c ≠ 'E') :
    parseExpPart cs = 0 := by
  cases cs with
  | nil => rfl
  | cons c rest =>
      have hc := h c rfl
      show (if c = 'e' ∨ c = 'E' then
        let esigned := parseSign rest
        let eds := List.takeWhile Char.isDigit esigned.2
        if eds.isEmpty = true then 0 else esigned.1 * (digitsToNat eds : ℤ)
      else 0) = 0
      rw [if_neg]
      rintro (h1 | h1)
      · exact hc.1 h1
      · exact hc.2 h1

/-- `parseFloat(s)` on a string led by a maximal non-empty digit run that
is not continued by a fraction or exponent yields the value of that
run. -/
lemma jsParseFloat_digit_run (d rest : String) (hne : d.data ≠ [])
    (hdig : ∀ c ∈ d.data, c.isDigit = true)
    (hrest : ∀ c, rest.data.head? = some c → c.isDigit = false)
    (hrest2 : ∀ c, rest.data.head? = some c → c ≠ '.' ∧ c ≠ 'e' ∧ c ≠ 'E') :
    jsParseFloat (d ++ rest) = some (JsDec.mk10 (digitsToNat d.data) 0) := by
  obtain ⟨c0, tl, hc⟩ := List.exists_cons_of_ne_nil hne
  have hc0 : c0.isDigit = true := hdig c0 (by rw [hc]; exact List.mem_cons_self _ _)
  have hws : c0.isWhitespace = false := digit_not_ws c0 hc0
  have htake : (d.data ++ rest.data).takeWhile Char.isDigit = d.data :=
    takeWhile_all_append _ _ _ hdig hrest
  have hskip : skipJsWs (d.data ++ rest.data) = d.data ++ rest.data := by
    rw [hc]
    simp only [skipJsWs, List.cons_append, List.dropWhile_cons, hws, Bool.false_eq_true,
      if_false]
  have hsign : parseSign (d.data ++ rest.data) = (1, d.data ++ rest.data) := by
    rw [hc]
    exact parseSign_digit c0 (tl ++ rest.data) hc0
  have hemp : d.data.isEmpty = false := by
    rw [hc]; rfl
  have hfrac : parseFracPart rest.data = ([], rest.data) :=
    parseFracPart_not_dot _ fun c hcc => (hrest2 c hcc).1
  have hexp : parseExpPart rest.data = 0 :=
    parseExpPart_not_e _ fun c hcc => ⟨(hrest2 c hcc).2.1, (hrest2 c hcc).2.2⟩
  unfold jsParseFloat
  rw [String.data_append, hskip]
  simp only [hsign, htake, List.drop_left, hfrac, hemp, List.isEmpty_nil, Bool.and_false,
    Bool.false_and, Bool.false_eq_true, if_false, hexp, List.append_nil, one_mul,
    List.length_nil, Nat.cast_zero, sub_zero]

/-- At positive fuel and depth `0`, a present value against the `Integer`
kind dispatches to `coerceNumber` with `isInt` set. -/
lemma coerceInternalF_integer (fuel : Nat) (v : JSValue) (c : NumConstraints)
    (o : ResolvedCoercionOptions) (p : String) (h : isAbsent v = false) :
    coerceInternalF (fuel + 1) v (.integer c) o p 0 = coerceNumber v true c p := by
  simp [coerceInternalF, h]

/-- At positive fuel and depth `0`, a present value against the `Number`
kind dispatches to `coerceNumber` with `isInt` unset. -/
lemma coerceInternalF_number (fuel : Nat) (v : JSValue) (c : NumConstraints)
    (o : ResolvedCoercionOptions) (p : String) (h : isAbsent v = false) :
    coerceInternalF (fuel + 1) v (.number c) o p 0 = coerceNumber v false c p := by
  simp [coerceInternalF, h]

/-- `coerceNumber` on a string whose parse succeeds. -/
lemma coerceNumber_str_some (s : String) (isInt : Bool) (c : NumConstraints) (p : String)
    (n : JsDec)
    (h : (if isInt then (jsParseInt s).map (fun i => JsDec.mk10 i 0) else jsParseFloat s) =
      some n) :
    coerceNumber (.str s) isInt c p =
      ⟨.num n, ["parsed string to number at " ++ p], validateNumber n c p⟩ := by
  simp only [coerceNumber, h]

/-- `coerceNumber` on a string whose parse is `NaN`. -/
lemma coerceNumber_str_none (s : String) (isInt : Bool) (c : NumConstraints) (p : String)
    (h : (if isInt then (jsParseInt s).map (fun i => JsDec.mk10 i 0) else jsParseFloat s) =
      none) :
    coerceNumber (.str s) isInt c p =
      ⟨.str s, [],
        [⟨"Cannot coerce to " ++ (if isInt then "integer" else "number"),
          some (if isInt then "integer" else "number"), some s⟩]⟩ := by
  simp only [coerceNumber, h]
  rfl

/-- Unconstrained numbers validate with no errors. -/
lemma validateNumber_free (n : JsDec) (p : String) : validateNumber n {} p = [] := rfl

/-- C10: for an Integer target, a string led by a maximal non-empty digit
run coerces to that prefix's integer value with a `parsed string to
number` note and no error, and the same string is accepted the same way
by a Number target (its float parse reads the same prefix when no
fraction or exponent continues it); a string input errors with `Cannot
coerce` exactly when the corresponding JS parse is `NaN` (`Option.none`
in the model). -/
theorem C10_numeric_lead (d rest : String) (o : CoercionOptions) (p : String)
    (hne : d.data ≠ []) (hdig : ∀ c ∈ d.data, c.isDigit = true)
    (hrest : ∀ c, rest.data.head? = some c → c.isDigit = false)
    (hrest2 : ∀ c, rest.data.head? = some c → c ≠ '.' ∧ c ≠ 'e' ∧ c ≠ 'E') :
    (coerceValue (.str (d ++ rest)) (.integer {}) o p =
      { value := .num (JsDec.mk10 (digitsToNat d.data) 0), success := true, errors := [],
        coercions := if (resolveCoercionOptions o).trackCoercions then
          some ["parsed string to number at " ++ p] else none,
        isPartial := false }) ∧
    (coerceValue (.str (d ++ rest)) (.number {}) o p =
      { value := .num (JsDec.mk10 (digitsToNat d.data) 0), success := true, errors := [],
        coercions := if (resolveCoercionOptions o).trackCoercions then
          some ["parsed string to number at " ++ p] else none,
        isPartial := false }) ∧
    (∀ t : String, (coerceValue (.str t) (.integer {}) o p).success = (jsParseInt t).isSome ∧
      (coerceValue (.str t) (.number {}) o p).success = (jsParseFloat t).isSome) := by
  refine ⟨?_, ?_, fun t => ⟨?_, ?_⟩⟩
  · have hw : coerceInternalF
        (coerceFuel (.str (d ++ rest)) (.integer {}) (resolveCoercionOptions o).maxDepth)
        (.str (d ++ rest)) (.integer {}) (resolveCoercionOptions o) p 0 =
        ⟨.num (JsDec.mk10 (digitsToNat d.data) 0), ["parsed string to number at " ++ p],
          []⟩ := by
      rw [coerceFuel_pos, coerceInternalF_integer _ _ _ _ _ (by rfl),
        coerceNumber_str_some _ _ _ _ (JsDec.mk10 (digitsToNat d.data) 0) (by
          simp [jsParseInt_digit_run d rest hne hdig hrest]),
        validateNumber_free]
    rw [coerceValue_walk_eq _ _ _ _ _ hw]
    simp [isComplete]
  · have hw : coerceInternalF
        (coerceFuel (.str (d ++ rest)) (.number {}) (resolveCoercionOptions o).maxDepth)
        (.str (d ++ rest)) (.number {}) (resolveCoercionOptions o) p 0 =
        ⟨.num (JsDec.mk10 (digitsToNat d.data) 0), ["parsed string to number at " ++ p],
          []⟩ := by
      rw [coerceFuel_pos, coerceInternalF_number _ _ _ _ _ (by rfl),
        coerceNumber_str_some _ _ _ _ (JsDec.mk10 (digitsToNat d.data) 0) (by
          simp [jsParseFloat_digit_run d rest hne hdig hrest hrest2]),
        validateNumber_free]
    rw [coerceValue_walk_eq _ _ _ _ _ hw]
    simp [isComplete]
  · cases h : jsParseInt t with
    | some n =>
        have hw := coerceNumber_str_some t true {} p (JsDec.mk10 n 0) (by simp [h])
        rw [coerceValue_walk_eq _ _ _ _ _ (by
          rw [coerceFuel_pos, coerceInternalF_integer _ _ _ _ _ (by rfl), hw])]
        rw [validateNumber_free]
        simp [h]
    | none =>
        have hw := coerceNumber_str_none t true {} p (by simp [h])
        rw [coerceValue_walk_eq _ _ _ _ _ (by
          rw [coerceFuel_pos, coerceInternalF_integer _ _ _ _ _ (by rfl), hw])]
        simp [h]
  · cases h : jsParseFloat t with
    | some n =>
        have hw := coerceNumber_str_some t false {} p n (by simp [h])
        rw [coerceValue_walk_eq _ _ _ _ _ (by
          rw [coerceFuel_pos, coerceInternalF_number _ _ _ _ _ (by rfl), hw])]
        rw [validateNumber_free]
        simp [h]
    | none =>
        have hw := coerceNumber_str_none t false {} p (by simp [h])
        rw [coerceValue_walk_eq _ _ _ _ _ (by
          rw [coerceFuel_pos, coerceInternalF_number _ _ _ _ _ (by rfl), hw])]
        simp [h]

/-- Concrete instance of `C10_numeric_lead` at the input `"42abc"`. -/
theorem C10_numeric_lead_witness :
    ("42".data ≠ [] ∧ (∀ c ∈ "42".data, c.isDigit = true)) ∧
    coerceValue (.str "42abc") (.integer {}) {} "" =
      { value := .num (JsDec.mk10 (digitsToNat "42".data) 0), success := true, errors := [],
        coercions := if (resolveCoercionOptions {}).trackCoercions then
          some ["parsed string to number at "] else none,
        isPartial := false } :=
  ⟨⟨by decide, by decide⟩,
    (by
      have h := (C10_numeric_lead "42" "abc" {} "" (by decide) (by decide) (by decide)
        (by decide)).1
      simpa using h)⟩

lemma mergeField_idem {α : Type} (a b : Option α) :
    mergeField (mergeField a b) b = mergeField a b := by
  cases a <;> cases b <;> rfl

lemma mergeField_some {α : Type} (x : α) (b : Option α) :
    mergeField (some x) b = some x := rfl

/-- C8: `parsePartialResponse` returns exactly `parseResponse` under the
caller's options with `allowPartials` and `allowAsString` forced on - the
double spread merge it performs (its own merge, then `parseResponse`'s)
collapses to the single merge `parseResponse` would perform on the forced
options. -/
theorem C8_parsePartial_equiv (response : String) (schema : Schema) (options : ParseOptions) :
    parsePartialResponse response schema options =
      parseResponse response schema
        { options with allowPartials := some true, allowAsString := some true } := by
  show parseResponseResolved _ _ _ = parseResponseResolved _ _ _
  congr 1
  simp [mergeParseOptions, mergeField_idem, mergeField_some]

lemma unionFold_found (l : List (Bool × Walk)) (acc2 : Option (JSValue × Nat)) (r : Walk) :
    List.foldl unionStep (some r, acc2) l = (some r, acc2) := by
  induction l with
  | nil => rfl
  | cons x xs ih => exact ih

/-- The union loop stops at the first admissible zero-error run and keeps
its walk. -/
lemma unionFold_first_clean (pre : List (Bool × Walk)) (t : Bool × Walk)
    (post : List (Bool × Walk))
    (hpre : ∀ x ∈ pre, ¬(x.1 = true ∧ x.2.errors = []))
    (ht : t.1 = true) (hterr : t.2.errors = []) :
    ∀ acc2, (List.foldl unionStep (none, acc2) (pre ++ t :: post)).1 = some t.2 := by
  induction pre with
  | nil =>
      intro acc2
      have hstep : unionStep (none, acc2) t = (some t.2, acc2) := by
        simp [unionStep, ht, hterr]
      simp only [List.nil_append, List.foldl_cons, hstep, unionFold_found]
  | cons x pre' ih =>
      intro acc2
      have hx := hpre x (List.mem_cons_self x pre')
      have hih := ih fun y hy => hpre y (List.mem_cons_of_mem _ hy)
      simp only [List.cons_append, List.foldl_cons]
      cases hx1 : x.1 with
      | false =>
          have hstep : unionStep (none, acc2) x = (none, acc2) := by
            simp [unionStep, hx1]
          rw [hstep]
          exact hih acc2
      | true =>
          have hxe : x.2.errors ≠ [] := fun hcon => hx ⟨hx1, hcon⟩
          have hxe2 : x.2.errors.isEmpty = false := by
            cases hxx : x.2.errors with
            | nil => exact absurd hxx hxe
            | cons a b => rfl
          cases hacc : (none : Option (JSValue × Nat)) with
          | some b => exact absurd hacc (by simp)
          | none =>
              have hstep : ∃ acc2', unionStep (none, acc2) x = (none, acc2') := by
                cases h2 : acc2 with
                | none =>
                    exact ⟨some (x.2.value, x.2.errors.length), by
                      simp [unionStep, hx1, hxe2]⟩
                | some b =>
                    by_cases hlt : x.2.errors.length < b.2
                    · exact ⟨some (x.2.value, x.2.errors.length), by
                        simp [unionStep, hx1, hxe2, hlt]⟩
                    · exact ⟨some b, by simp [unionStep, hx1, hxe2, hlt]⟩
              obtain ⟨acc2', hstep⟩ := hstep
              rw [hstep]
              exact hih acc2'

/-- At positive fuel and depth `0`, a present value against the `Union`
kind dispatches to `coerceUnionF`. -/
lemma coerceInternalF_union (fuel : Nat) (v : JSValue) (vs : List Schema)
    (o : ResolvedCoercionOptions) (p : String) (h : isAbsent v = false) :
    coerceInternalF (fuel + 1) v (.union vs) o p 0 = coerceUnionF fuel v vs o p 0 := by
  simp [coerceInternalF, h]

lemma isComplete_union_present (v : JSValue) (vs : List Schema) (hv : isAbsent v = false) :
    isComplete v (.union vs) = true := by
  have h1 := Bool.or_eq_false_iff.mp hv
  simp only [isComplete, h1.1, h1.2, Bool.not_false, Bool.and_self]

/-- C1 counterexample: on input `"42"` against `Union[Integer, String]`,
the earlier Integer alternative coerces with zero errors (it parses the
string), and the String alternative also coerces with zero errors, yet
the union returns the String alternative's result `"42"` and not the
earlier alternative's `42` - the `canHandleValue` pre-filter skips the
Integer variant for a string input before any coercion is tried. -/
theorem C1_counterexample :
    (coerceValue (.str "42") (.integer {}) {} "").success = true ∧
    (coerceValue (.str "42") (.string none none none none) {} "").success = true ∧
    (coerceValue (.str "42") (.union [.integer {}, .string none none none none]) {} "").value
      = .str "42" ∧
    (coerceValue (.str "42") (.integer {}) {} "").value = .num 42 ∧
    JSValue.str "42" ≠ .num 42 := by decide

/-- C1 amended: among the alternatives that pass the `can_handle`
pre-filter, one that coerces with zero errors short-circuits the search
in declared order: if every earlier alternative is either inadmissible or
coerces with errors, and `s` is admissible and coerces with zero errors,
the union returns `s`'s value with `s`'s notes and no errors, whatever
comes later.  (`F` is the fuel the walk hands the variant runs.) -/
theorem C1_union_order (v : JSValue) (pre post : List Schema) (s : Schema)
    (o : CoercionOptions) (p : String) (F : Nat)
    (hv : isAbsent v = false)
    (hF : F + 2 = coerceFuel v (.union (pre ++ s :: post)) (resolveCoercionOptions o).maxDepth)
    (hpre : ∀ s' ∈ pre, ¬(canHandleValue v s' = true ∧
      (coerceInternalF F v s' (resolveCoercionOptions o) p 0).errors = []))
    (hs1 : canHandleValue v s = true)
    (hs2 : (coerceInternalF F v s (resolveCoercionOptions o) p 0).errors = []) :
    coerceValue v (.union (pre ++ s :: post)) o p =
      { value := (coerceInternalF F v s (resolveCoercionOptions o) p 0).value
        success := true
        errors := []
        coercions := if (resolveCoercionOptions o).trackCoercions then
          some (coerceInternalF F v s (resolveCoercionOptions o) p 0).coercions else none
        isPartial := false } := by
  have hw : coerceInternalF (coerceFuel v (.union (pre ++ s :: post))
      (resolveCoercionOptions o).maxDepth) v (.union (pre ++ s :: post))
      (resolveCoercionOptions o) p 0 =
      ⟨(coerceInternalF F v s (resolveCoercionOptions o) p 0).value,
        (coerceInternalF F v s (resolveCoercionOptions o) p 0).coercions, []⟩ := by
    rw [← hF, coerceInternalF_union _ _ _ _ _ hv]
    simp only [coerceUnionF, List.map_append, List.map_cons]
    rw [unionFold_first_clean
      (pre.map fun variant =>
        (canHandleValue v variant, coerceInternalF F v variant (resolveCoercionOptions o) p 0))
      (canHandleValue v s, coerceInternalF F v s (resolveCoercionOptions o) p 0)
      (post.map fun variant =>
        (canHandleValue v variant, coerceInternalF F v variant (resolveCoercionOptions o) p 0))
      (fun x hx => by
        obtain ⟨s', hs', rfl⟩ := List.mem_map.mp hx
        exact hpre s' hs')
      hs1 hs2 none]
  rw [coerceValue_walk_eq _ _ _ _ _ hw]
  simp [isComplete_union_present v _ hv]

/-- Concrete instance of `C1_union_order`: `Union[Integer, String]` on
`"42"` (the inadmissible Integer variant is skipped, the admissible
String variant is clean and wins). -/
theorem C1_union_order_witness :
    canHandleValue (.str "42") (.string none none none none) = true ∧
    (coerceInternalF 678 (.str "42") (.string none none none none)
      (resolveCoercionOptions {}) "" 0).errors = [] ∧
    coerceValue (.str "42") (.union [.integer {}, .string none none none none]) {} "" =
      { value := (coerceInternalF 678 (.str "42") (.string none none none none)
          (resolveCoercionOptions {}) "" 0).value
        success := true
        errors := []
        coercions := if (resolveCoercionOptions {}).trackCoercions then
          some (coerceInternalF 678 (.str "42") (.string none none none none)
            (resolveCoercionOptions {}) "" 0).coercions else none
        isPartial := false } :=
  ⟨by decide, by decide,
    C1_union_order (.str "42") [.integer {}] [] (.string none none none none) {} "" 678
      (by decide) (by decide)
      (by decide)
      (by decide) (by decide)⟩

/-- The best-tracking update of the union loop when no clean run has been
found: an admissible run with strictly fewer errors replaces the best. -/
def bestUpdate (acc2 : Option (JSValue × Nat)) (x : Bool × Walk) : Option (JSValue × Nat) :=
  if x.1 then
    match acc2 with
    | none => some (x.2.value, x.2.errors.length)
    | some b => if x.2.errors.length < b.2 then some (x.2.value, x.2.errors.length) else some b
  else acc2

lemma unionStep_no_clean (acc2 : Option (JSValue × Nat)) (x : Bool × Walk)
    (hx : x.1 = true → x.2.errors.isEmpty = false) :
    unionStep (none, acc2) x = (none, bestUpdate acc2 x) := by
  cases hx1 : x.1 with
  | false => simp [unionStep, bestUpdate, hx1]
  | true =>
      have hxe := hx hx1
      cases h2 : acc2 with
      | none => simp [unionStep, bestUpdate, hx1, hxe]
      | some b =>
          by_cases hlt : x.2.errors.length < b.2 <;>
            simp [unionStep, bestUpdate, hx1, hxe, hlt]

lemma unionFold_no_clean (l : List (Bool × Walk))
    (hc : ∀ x ∈ l, x.1 = true → x.2.errors.isEmpty = false) :
    ∀ acc2, List.foldl unionStep (none, acc2) l = (none, List.foldl bestUpdate acc2 l) := by
  induction l with
  | nil => intro acc2; rfl
  | cons x xs ih =>
      intro acc2
      rw [List.foldl_cons, List.foldl_cons,
        unionStep_no_clean acc2 x (hc x (List.mem_cons_self x xs))]
      exact ih (fun y hy => hc y (List.mem_cons_of_mem _ hy)) _

lemma bestFold_isSome (l : List (Bool × Walk)) :
    ∀ acc2, (acc2.isSome ∨ ∃ x ∈ l, x.1 = true) →
      (List.foldl bestUpdate acc2 l).isSome = true := by
  induction l with
  | nil =>
      intro acc2 h
      rcases h with h | ⟨x, hx, _⟩
      · simpa using h
      · exact absurd hx (List.not_mem_nil x)
  | cons x xs ih =>
      intro acc2 h
      rw [List.foldl_cons]
      rcases h with h | ⟨y, hy, hy1⟩
      · refine ih _ (Or.inl ?_)
        obtain ⟨a, ha⟩ := Option.isSome_iff_exists.mp h
        cases hx1 : x.1 <;> simp [bestUpdate, hx1, ha] <;> split <;> simp
      · rcases List.mem_cons.mp hy with rfl | hy'
        · refine ih _ (Or.inl ?_)
          cases h2 : acc2 <;> simp [bestUpdate, hy1, h2] <;> split <;> simp
        · exact ih _ (Or.inr ⟨y, hy', hy1⟩)

lemma bestFold_mem (l : List (Bool × Walk)) :
    ∀ acc2 b, List.foldl bestUpdate acc2 l = some b →
      acc2 = some b ∨ ∃ x ∈ l, x.1 = true ∧ b = (x.2.value, x.2.errors.length) := by
  induction l with
  | nil => intro acc2 b h; exact Or.inl h
  | cons x xs ih =>
      intro acc2 b h
      rw [List.foldl_cons] at h
      rcases ih _ _ h with h2 | ⟨y, hy, hy1, hy2⟩
      · cases hx1 : x.1 with
        | false =>
            rw [bestUpdate.eq_def, hx1] at h2
            exact Or.inl (by simpa using h2)
        | true =>
            rw [bestUpdate.eq_def, hx1] at h2
            simp only [if_true] at h2
            cases hacc : acc2 with
            | none =>
                rw [hacc] at h2
                exact Or.inr ⟨x, List.mem_cons_self x xs, hx1, (Option.some_inj.mp h2).symm⟩
            | some a =>
                rw [hacc] at h2
                simp only [] at h2
                by_cases hlt : x.2.errors.length < a.2
                · rw [if_pos hlt] at h2
                  exact Or.inr ⟨x, List.mem_cons_self x xs, hx1, (Option.some_inj.mp h2).symm⟩
                · rw [if_neg hlt] at h2
                  exact Or.inl (hacc ▸ h2)
      · exact Or.inr ⟨y, List.mem_cons_of_mem _ hy, hy1, hy2⟩

lemma bestFold_min (l : List (Bool × Walk)) :
    ∀ acc2 b, List.foldl bestUpdate acc2 l = some b →
      (∀ a, acc2 = some a → b.2 ≤ a.2) ∧
      (∀ x ∈ l, x.1 = true → b.2 ≤ x.2.errors.length) := by
  induction l with
  | nil =>
      intro acc2 b h
      refine ⟨fun a ha => ?_, fun x hx => absurd hx (List.not_mem_nil x)⟩
      rw [ha] at h
      rw [Option.some_inj.mp h]
  | cons x xs ih =>
      intro acc2 b h
      rw [List.foldl_cons] at h
      have hih := ih _ _ h
      have hupd : ∀ a, acc2 = some a → b.2 ≤ a.2 := by
        intro a ha
        cases hx1 : x.1 with
        | false =>
            exact hih.1 a (by rw [bestUpdate.eq_def, hx1]; simpa using ha)
        | true =>
            by_cases hlt : x.2.errors.length < a.2
            · have := hih.1 (x.2.value, x.2.errors.length) (by
                rw [bestUpdate.eq_def, hx1, ha]
                simp [hlt])
              omega
            · exact hih.1 a (by rw [bestUpdate.eq_def, hx1, ha]; simp [hlt])
      refine ⟨hupd, fun y hy hy1 => ?_⟩
      rcases List.mem_cons.mp hy with rfl | hy'
      · cases hacc : acc2 with
        | none =>
            exact hih.1 (y.2.value, y.2.errors.length) (by rw [bestUpdate.eq_def, hy1, hacc]; rfl)
        | some a =>
            by_cases hlt : y.2.errors.length < a.2
            · exact hih.1 (y.2.value, y.2.errors.length) (by
                rw [bestUpdate.eq_def, hy1, hacc]
                simp [hlt])
            · have := hih.1 a (by rw [bestUpdate.eq_def, hy1, hacc]; simp [hlt])
              omega
      · exact hih.2 y hy' hy1

/-- C2 counterexample: `Union[Integer(minimum 10)]` on input `5`.  The
only variant is admissible and coerces with exactly one error (the
minimum violation), yet the union result carries an EMPTY error list and
`success = true`: the best variant's errors are discarded and only the
`selected union variant with 1 errors` note (visible only under
`trackCoercions`) records them, while the claim requires those errors in
the result's list and `success = false`. -/
theorem C2_counterexample :
    (coerceValue (.num 5) (.integer {minimum := some 10}) {} "").errors.length = 1 ∧
    coerceValue (.num 5) (.union [.integer {minimum := some 10}])
        {trackCoercions := some true} "" =
      { value := .num 5
        success := true
        errors := []
        coercions := some ["selected union variant with 1 errors at "]
        isPartial := false } := by decide

/-- C2 amended: when some union variant is admissible but no admissible
variant coerces error-free, the union selects a variant attaining the
minimal error count among the admissible ones and returns its value, but
DISCARDS the selected variant's errors and notes: the result has an empty
error list, hence `success = true`, and the only trace is a
`selected union variant with N errors` note that survives only under
`trackCoercions`.  (`F` is the fuel the walk hands the variant runs.) -/
theorem C2_union_best_effort (v : JSValue) (vs : List Schema)
    (o : CoercionOptions) (p : String) (F : Nat)
    (hv : isAbsent v = false)
    (hF : F + 2 = coerceFuel v (.union vs) (resolveCoercionOptions o).maxDepth)
    (hno : ∀ s ∈ vs, canHandleValue v s = true →
      (coerceInternalF F v s (resolveCoercionOptions o) p 0).errors ≠ [])
    (hadm : ∃ s ∈ vs, canHandleValue v s = true) :
    ∃ s ∈ vs, canHandleValue v s = true ∧
      (∀ t ∈ vs, canHandleValue v t = true →
        (coerceInternalF F v s (resolveCoercionOptions o) p 0).errors.length ≤
          (coerceInternalF F v t (resolveCoercionOptions o) p 0).errors.length) ∧
      coerceValue v (.union vs) o p =
        { value := (coerceInternalF F v s (resolveCoercionOptions o) p 0).value
          success := true
          errors := []
          coercions := if (resolveCoercionOptions o).trackCoercions then
            some ["selected union variant with " ++
              toString (coerceInternalF F v s (resolveCoercionOptions o) p 0).errors.length ++
              " errors at " ++ p] else none
          isPartial := false } := by
  classical
  set O := resolveCoercionOptions o with hO
  set f : Schema → Bool × Walk := fun s => (canHandleValue v s, coerceInternalF F v s O p 0)
    with hf
  have hc : ∀ x ∈ vs.map f, x.1 = true → x.2.errors.isEmpty = false := by
    intro x hx h1
    obtain ⟨s, hs, rfl⟩ := List.mem_map.mp hx
    have := hno s hs h1
    cases hxx : (coerceInternalF F v s O p 0).errors with
    | nil => exact absurd hxx this
    | cons a b => simp [hf, hxx]
  have hsome : (List.foldl bestUpdate none (vs.map f)).isSome = true := by
    obtain ⟨s0, hs0, h1⟩ := hadm
    exact bestFold_isSome (vs.map f) none
      (Or.inr ⟨f s0, List.mem_map.mpr ⟨s0, hs0, rfl⟩, h1⟩)
  obtain ⟨b, hb⟩ := Option.isSome_iff_exists.mp hsome
  rcases bestFold_mem (vs.map f) none b hb with hcon | ⟨x, hx, hx1, hx2⟩
  · exact absurd hcon (by simp)
  obtain ⟨s, hs, rfl⟩ := List.mem_map.mp hx
  refine ⟨s, hs, hx1, ?_, ?_⟩
  · intro t ht ht1
    have := (bestFold_min (vs.map f) none b hb).2 (f t)
      (List.mem_map.mpr ⟨t, ht, rfl⟩) ht1
    rw [hx2] at this
    exact this
  · have hw : coerceInternalF (coerceFuel v (.union vs) O.maxDepth) v (.union vs) O p 0 =
        ⟨(coerceInternalF F v s O p 0).value,
          ["selected union variant with " ++
            toString (coerceInternalF F v s O p 0).errors.length ++ " errors at " ++ p],
          []⟩ := by
      rw [← hF, coerceInternalF_union _ _ _ _ _ hv]
      show coerceUnionF (F + 1) v vs O p 0 = _
      simp only [coerceUnionF]
      rw [show (vs.map fun variant => (canHandleValue v variant,
            coerceInternalF F v variant O p 0)) = vs.map f from rfl,
        unionFold_no_clean (vs.map f) hc none, hb, hx2]
    rw [coerceValue_walk_eq _ _ _ _ _ hw]
    simp [isComplete_union_present v _ hv]

/-- Concrete instance of `C2_union_best_effort`:
`Union[Integer(minimum 10)]` on `5` with `trackCoercions` on (the sole
variant is admissible, errs once, and its value is returned with an empty
error list and only the selection note). -/
theorem C2_union_best_effort_witness :
    ∃ s ∈ [Schema.integer {minimum := some 10}], canHandleValue (.num 5) s = true ∧
      (∀ t ∈ [Schema.integer {minimum := some 10}], canHandleValue (.num 5) t = true →
        (coerceInternalF 638 (.num 5) s
            (resolveCoercionOptions {trackCoercions := some true}) "" 0).errors.length ≤
          (coerceInternalF 638 (.num 5) t
            (resolveCoercionOptions {trackCoercions := some true}) "" 0).errors.length) ∧
      coerceValue (.num 5) (.union [Schema.integer {minimum := some 10}])
          {trackCoercions := some true} "" =
        { value := (coerceInternalF 638 (.num 5) s
            (resolveCoercionOptions {trackCoercions := some true}) "" 0).value
          success := true
          errors := []
          coercions := if (resolveCoercionOptions
              {trackCoercions := some true}).trackCoercions then
            some ["selected union variant with " ++
              toString (coerceInternalF 638 (.num 5) s
                (resolveCoercionOptions {trackCoercions := some true}) "" 0).errors.length ++
              " errors at " ++ ""] else none
          isPartial := false } :=
  C2_union_best_effort (.num 5) [Schema.integer {minimum := some 10}]
    {trackCoercions := some true} "" 638
    (by decide) (by decide) (by decide) (by decide)

/-- The mutual walk never reads the `strict` or `trackCoercions` fields of
the resolved options: with `allowPartials`, `useDefaults` and `maxDepth`
fixed, all eight walk functions agree for any two values of the remaining
fields.  One induction on fuel: every recursive call of the mutual block
consumes one unit. -/
lemma walk_strict_invariant (ap ud : Bool) (md : Nat) (st1 tc1 st2 tc2 : Bool) :
    ∀ fuel : Nat,
    (∀ v s p d, coerceInternalF fuel v s ⟨ap, ud, st1, md, tc1⟩ p d =
      coerceInternalF fuel v s ⟨ap, ud, st2, md, tc2⟩ p d) ∧
    (∀ v props req addl p d,
      coerceObjectF fuel v props req addl ⟨ap, ud, st1, md, tc1⟩ p d =
        coerceObjectF fuel v props req addl ⟨ap, ud, st2, md, tc2⟩ p d) ∧
    (∀ v items p d, coerceArrayF fuel v items ⟨ap, ud, st1, md, tc1⟩ p d =
      coerceArrayF fuel v items ⟨ap, ud, st2, md, tc2⟩ p d) ∧
    (∀ v vs p d, coerceUnionF fuel v vs ⟨ap, ud, st1, md, tc1⟩ p d =
      coerceUnionF fuel v vs ⟨ap, ud, st2, md, tc2⟩ p d) ∧
    (∀ v allOf p d, coerceIntersectF fuel v allOf ⟨ap, ud, st1, md, tc1⟩ p d =
      coerceIntersectF fuel v allOf ⟨ap, ud, st2, md, tc2⟩ p d) ∧
    (∀ v inner p d, coerceOptionalF fuel v inner ⟨ap, ud, st1, md, tc1⟩ p d =
      coerceOptionalF fuel v inner ⟨ap, ud, st2, md, tc2⟩ p d) ∧
    (∀ v pp addl p d, coerceRecordF fuel v pp addl ⟨ap, ud, st1, md, tc1⟩ p d =
      coerceRecordF fuel v pp addl ⟨ap, ud, st2, md, tc2⟩ p d) ∧
    (∀ v items addI p d, coerceTupleF fuel v items addI ⟨ap, ud, st1, md, tc1⟩ p d =
      coerceTupleF fuel v items addI ⟨ap, ud, st2, md, tc2⟩ p d) := by
  have hnull : ∀ v p, coerceNull v ⟨ap, ud, st1, md, tc1⟩ p =
      coerceNull v ⟨ap, ud, st2, md, tc2⟩ p := fun v p => rfl
  intro fuel
  induction fuel with
  | zero =>
      exact ⟨fun _ _ _ _ => rfl, fun _ _ _ _ _ _ => rfl, fun _ _ _ _ => rfl,
        fun _ _ _ _ => rfl, fun _ _ _ _ => rfl, fun _ _ _ _ => rfl,
        fun _ _ _ _ _ => rfl, fun _ _ _ _ _ => rfl⟩
  | succ n ih =>
      obtain ⟨ih1, ih2, ih3, ih4, ih5, ih6, ih7, ih8⟩ := ih
      refine ⟨?_, ?_, ?_, ?_, ?_, ?_, ?_, ?_⟩
      · intro v s p d
        simp only [coerceInternalF, ih1, ih2, ih3, ih4, ih5, ih6, ih7, ih8, hnull]
      · intro v props req addl p d
        simp only [coerceObjectF, ih1, ih2]
      · intro v items p d
        simp only [coerceArrayF, ih1]
      · intro v vs p d
        simp only [coerceUnionF, ih1]
      · intro v allOf p d
        simp only [coerceIntersectF, ih2]
      · intro v inner p d
        simp only [coerceOptionalF, ih1]
      · intro v pp addl p d
        simp only [coerceRecordF, ih1]
      · intro v items addI p d
        simp only [coerceTupleF, ih1]

/-- C7: the `strict` option has no effect - for every input value, schema,
options and path, `coerceValue` with `strict` forced on returns exactly
the same result (value, success, errors, coercions, isPartial) as with
`strict` forced off: the walk never reads `strict`, and the packaging
reads only `trackCoercions` and `allowPartials`. -/
theorem C7_strict_noop (v : JSValue) (s : Schema) (o : CoercionOptions) (p : String) :
    coerceValue v s {o with strict := some true} p =
      coerceValue v s {o with strict := some false} p := by
  have h := (walk_strict_invariant (o.allowPartials.getD false) (o.useDefaults.getD true)
      (o.maxDepth.getD 50) true (o.trackCoercions.getD false) false
      (o.trackCoercions.getD false)
      (coerceFuel v s (o.maxDepth.getD 50))).1 v s p 0
  simp only [coerceValue, resolveCoercionOptions, defaultCoercionOptions, Option.getD_some]
  rw [h]
